import Mathlib

/-!
Verification of the Axiom intraday trading engine (Go sources) against its
natural-language specification.  The engine's shared mutable maps are embedded
as association lists keyed by ticker symbol; `float64` prices are embedded as
rationals (ℚ); wall-clock times are abstract `Nat` timestamps; the outcome of
each outbound order and each price fetch is supplied by explicit oracles, since
the gateway is an external collaborator.  The single global mutex of the Go
program serializes every operation, so the embedding is the sequential
semantics of the locked regions.
-/

/-- Association-list lookup keyed by symbol, mirroring Go map indexing. -/
def lookupM {α : Type} : List (String × α) → String → Option α
  | [], _ => none
  | (k, v) :: t, sym => if k = sym then some v else lookupM t sym

/-- Removal of every binding of a key, mirroring Go `delete(m, sym)`. -/
def eraseM {α : Type} : List (String × α) → String → List (String × α)
  | [], _ => []
  | (k, v) :: t, sym => if k = sym then eraseM t sym else (k, v) :: eraseM t sym

/-- Key assignment, mirroring Go `m[sym] = v` (replaces any old binding). -/
def insertM {α : Type} (m : List (String × α)) (sym : String) (v : α) :
    List (String × α) :=
  (sym, v) :: eraseM m sym

/-- Per-instrument running session high/low (`highLow` map entries); `0` is the
sentinel for "unset". -/
structure PriceRange where
  High : ℚ
  Low : ℚ
deriving DecidableEq

/-- An open long position, as stored in `longPositions`. -/
structure LongPos where
  EntryPrice : ℚ
  HighestPrice : ℚ
  Qty : Int
  EntryTime : Nat
deriving DecidableEq

/-- An open short position, as stored in `shortPositions`. -/
structure ShortPos where
  EntryPrice : ℚ
  LowestPrice : ℚ
  Qty : Int
  EntryTime : Nat
deriving DecidableEq

/-- The reason strings produced by the exit paths.  The Go code formats the
stop-loss / target percentage into the string; the percentage is carried as a
payload here. -/
inductive ExitReason where
  | fixedSL (slPct : ℚ)
  | target (targetPct : ℚ)
  | trailingSL
  | eodSquareOff
deriving DecidableEq

/-- A closed-trade record appended to the daily ledger (`TradeRecord`). -/
structure TradeRecord where
  Symbol : String
  Direction : String
  EntryTime : Nat
  EntryPrice : ℚ
  ExitTime : Nat
  ExitPrice : ℚ
  Qty : Int
  PnL : ℚ
  Reason : ExitReason
deriving DecidableEq

/-- Per-symbol strategy parameters loaded from `config.json`. -/
structure StockStrategy where
  Class : String
  AllowShort : Bool
  BreakoutLong : ℚ
  BreakoutShort : ℚ
  Target : ℚ
  SL : ℚ
  Leverage : ℚ
deriving DecidableEq

def defaultBudget : ℚ := 100000
def defaultMaxPositions : Nat := 8
def defaultBuffer : ℚ := 0.002
def defaultBounceRebound : ℚ := 0.008
def defaultQuickDrop : ℚ := 0.012
def defaultFixedSLPercent : ℚ := 1.0
def defaultTargetPercent : ℚ := 2.0
def defaultTrailingPercent : ℚ := 1.0
def defaultLeverage : ℚ := 1.0
def historyWindow : Nat := 3

/-- The engine's shared mutable state: the global maps of `part_003` plus the
daily ledger variables. -/
structure EngineState where
  highLow : List (String × PriceRange)
  ltpHistory : List (String × List ℚ)
  longPositions : List (String × LongPos)
  shortPositions : List (String × ShortPos)
  tradeHistory : List TradeRecord
  dailyPnL : ℚ
  lastDailyReset : Nat
deriving DecidableEq

/-- State at process start: all maps empty, `dailyPnL = 0`. -/
def initState : EngineState :=
  { highLow := [], ltpHistory := [], longPositions := [], shortPositions := []
    tradeHistory := [], dailyPnL := 0, lastDailyReset := 0 }

/-- `getStrategy`: per-symbol parameters with the process-wide default
fallback (class "B", shortable, buffers 0.2%, target 2%, SL 1%, leverage 1). -/
def getStrategy (strategies : String → Option StockStrategy) (sym : String) :
    StockStrategy :=
  match strategies sym with
  | some strat => strat
  | none =>
      { Class := "B", AllowShort := true, BreakoutLong := defaultBuffer
        BreakoutShort := defaultBuffer, Target := defaultTargetPercent / 100
        SL := defaultFixedSLPercent / 100, Leverage := defaultLeverage }

/-- Go's `int(x)` float-to-int conversion: truncation toward zero. -/
def goInt (q : ℚ) : Int := q.num.tdiv (q.den : Int)

/-- One `updateHighLow` step on a single `PriceRange` cell: the two sentinel
checks of the Go function. -/
def hlStep (hl : PriceRange) (ltp : ℚ) : PriceRange :=
  { High := if hl.High = 0 ∨ ltp > hl.High then ltp else hl.High
    Low := if hl.Low = 0 ∨ ltp < hl.Low then ltp else hl.Low }

/-- `updateHighLow(sym, ltp)`: reads the (possibly zero-valued) cell and writes
the updated cell back. -/
def updateHighLow (s : EngineState) (sym : String) (ltp : ℚ) : EngineState :=
  { s with highLow :=
      insertM s.highLow sym (hlStep ((lookupM s.highLow sym).getD ⟨0, 0⟩) ltp) }

/-- One `updateLTPHistory` step on a single history list: append, then evict
the oldest entry once the length exceeds the window. -/
def histStep (hist : List ℚ) (ltp : ℚ) : List ℚ :=
  let h := hist ++ [ltp]
  if historyWindow < h.length then h.drop 1 else h

/-- `updateLTPHistory(sym, ltp)` on the engine state. -/
def updateLTPHistory (s : EngineState) (sym : String) (ltp : ℚ) : EngineState :=
  { s with ltpHistory :=
      insertM s.ltpHistory sym (histStep ((lookupM s.ltpHistory sym).getD []) ltp) }

/-- The per-symbol observation of the polling loop: `updateHighLow` followed by
`updateLTPHistory` (§4.3's `observe`). -/
def observe (s : EngineState) (o : String × ℚ) : EngineState :=
  updateLTPHistory (updateHighLow s o.1 o.2) o.1 o.2

/-- `logTradeRecord`: append to the daily ledger and accumulate `dailyPnL`. -/
def logTradeRecord (s : EngineState) (trade : TradeRecord) : EngineState :=
  { s with tradeHistory := s.tradeHistory ++ [trade]
           dailyPnL := s.dailyPnL + trade.PnL }

/-- `enterLong`: size the position from the leveraged budget, skip when below
one share, place the order (outcome given by the `orderOk` oracle; always `true`
in paper-trading mode), and record the position on success. -/
def enterLong (orderOk : Bool) (now : Nat) (s : EngineState) (sym : String)
    (ltp leverage : ℚ) : EngineState :=
  let effectiveBudget := defaultBudget * leverage
  let qty := goInt (effectiveBudget / ltp)
  if qty < 1 then s
  else if orderOk then
    { s with longPositions := insertM s.longPositions sym ⟨ltp, ltp, qty, now⟩ }
  else s

/-- `enterShort`, the mirror of `enterLong`. -/
def enterShort (orderOk : Bool) (now : Nat) (s : EngineState) (sym : String)
    (ltp leverage : ℚ) : EngineState :=
  let effectiveBudget := defaultBudget * leverage
  let qty := goInt (effectiveBudget / ltp)
  if qty < 1 then s
  else if orderOk then
    { s with shortPositions := insertM s.shortPositions sym ⟨ltp, ltp, qty, now⟩ }
  else s

/-- `exitLong`: place the closing SELL order first; on failure return with the
state untouched; on success remove the position, compute realized P&L and log
the trade record. -/
def exitLong (orderOk : Bool) (now : Nat) (s : EngineState) (sym : String)
    (ltp : ℚ) (qty : Int) (reason : ExitReason) : EngineState :=
  if orderOk then
    let pos := (lookupM s.longPositions sym).getD ⟨0, 0, 0, 0⟩
    let s' := { s with longPositions := eraseM s.longPositions sym }
    let pnl := (qty : ℚ) * (ltp - pos.EntryPrice)
    logTradeRecord s'
      { Symbol := sym, Direction := "LONG", EntryTime := pos.EntryTime
        EntryPrice := pos.EntryPrice, ExitTime := now, ExitPrice := ltp
        Qty := qty, PnL := pnl, Reason := reason }
  else s

/-- `exitShort`, the mirror of `exitLong` (closing BUY order). -/
def exitShort (orderOk : Bool) (now : Nat) (s : EngineState) (sym : String)
    (ltp : ℚ) (qty : Int) (reason : ExitReason) : EngineState :=
  if orderOk then
    let pos := (lookupM s.shortPositions sym).getD ⟨0, 0, 0, 0⟩
    let s' := { s with shortPositions := eraseM s.shortPositions sym }
    let pnl := (qty : ℚ) * (pos.EntryPrice - ltp)
    logTradeRecord s'
      { Symbol := sym, Direction := "SHORT", EntryTime := pos.EntryTime
        EntryPrice := pos.EntryPrice, ExitTime := now, ExitPrice := ltp
        Qty := qty, PnL := pnl, Reason := reason }
  else s

/-- `checkLongExit`: while a long is open, update the favorable extreme first,
then test fixed stop-loss, target and trailing stop in that order; the first
match exits and the rest are skipped. -/
def checkLongExit (strategies : String → Option StockStrategy) (orderOk : Bool)
    (now : Nat) (s : EngineState) (sym : String) (ltp : ℚ) : EngineState :=
  match lookupM s.longPositions sym with
  | none => s
  | some pos0 =>
    let strat := getStrategy strategies sym
    let pos := { pos0 with HighestPrice := max pos0.HighestPrice ltp }
    let s1 := { s with longPositions := insertM s.longPositions sym pos }
    let fixedSL := pos.EntryPrice * (1 - strat.SL)
    if ltp ≤ fixedSL then
      exitLong orderOk now s1 sym ltp pos.Qty (.fixedSL strat.SL)
    else
      let target := pos.EntryPrice * (1 + strat.Target)
      if target ≤ ltp then
        exitLong orderOk now s1 sym ltp pos.Qty (.target strat.Target)
      else
        let trailingSL := pos.HighestPrice * (1 - defaultTrailingPercent / 100)
        if ltp ≤ trailingSL then
          exitLong orderOk now s1 sym ltp pos.Qty .trailingSL
        else s1

/-- `checkShortExit`, the mirror of `checkLongExit`. -/
def checkShortExit (strategies : String → Option StockStrategy) (orderOk : Bool)
    (now : Nat) (s : EngineState) (sym : String) (ltp : ℚ) : EngineState :=
  match lookupM s.shortPositions sym with
  | none => s
  | some pos0 =>
    let strat := getStrategy strategies sym
    let pos := { pos0 with LowestPrice := min pos0.LowestPrice ltp }
    let s1 := { s with shortPositions := insertM s.shortPositions sym pos }
    let fixedSL := pos.EntryPrice * (1 + strat.SL)
    if fixedSL ≤ ltp then
      exitShort orderOk now s1 sym ltp pos.Qty (.fixedSL strat.SL)
    else
      let target := pos.EntryPrice * (1 - strat.Target)
      if ltp ≤ target then
        exitShort orderOk now s1 sym ltp pos.Qty (.target strat.Target)
      else
        let trailingSL := pos.LowestPrice * (1 + defaultTrailingPercent / 100)
        if trailingSL ≤ ltp then
          exitShort orderOk now s1 sym ltp pos.Qty .trailingSL
        else s1

/-- `checkBreakoutLong`: a long breakout entry, guarded by the absence of an
open long for the symbol (Go tests `pos.EntryPrice > 0` on the zero value). -/
def checkBreakoutLong (strategies : String → Option StockStrategy)
    (orderOk : Bool) (now : Nat) (s : EngineState) (sym : String)
    (ltp threshold : ℚ) : EngineState :=
  let hl := (lookupM s.highLow sym).getD ⟨0, 0⟩
  let pos := (lookupM s.longPositions sym).getD ⟨0, 0, 0, 0⟩
  if 0 < pos.EntryPrice then s
  else if 0 < hl.High ∧ hl.High * (1 + threshold) < ltp then
    enterLong orderOk now s sym ltp (getStrategy strategies sym).Leverage
  else s

/-- `checkBounceBackBuy`: a rebound near the session low; requires at least two
history samples. -/
def checkBounceBackBuy (strategies : String → Option StockStrategy)
    (orderOk : Bool) (now : Nat) (s : EngineState) (sym : String) (ltp : ℚ) :
    EngineState :=
  let hl := (lookupM s.highLow sym).getD ⟨0, 0⟩
  let hist := (lookupM s.ltpHistory sym).getD []
  let pos := (lookupM s.longPositions sym).getD ⟨0, 0, 0, 0⟩
  if 0 < pos.EntryPrice ∨ hist.length < 2 then s
  else
    let prev := hist.getD (hist.length - 2) 0
    if prev ≤ hl.Low * 1.005 ∧ prev * (1 + defaultBounceRebound) ≤ ltp then
      enterLong orderOk now s sym ltp (getStrategy strategies sym).Leverage
    else s

/-- `checkBreakdownShort`: a short breakdown entry below the session low. -/
def checkBreakdownShort (strategies : String → Option StockStrategy)
    (orderOk : Bool) (now : Nat) (s : EngineState) (sym : String)
    (ltp threshold : ℚ) : EngineState :=
  let hl := (lookupM s.highLow sym).getD ⟨0, 0⟩
  let pos := (lookupM s.shortPositions sym).getD ⟨0, 0, 0, 0⟩
  if 0 < pos.EntryPrice then s
  else if 0 < hl.Low ∧ ltp < hl.Low * (1 - threshold) then
    enterShort orderOk now s sym ltp (getStrategy strategies sym).Leverage
  else s

/-- `checkQuickDropShort`: a large single-interval drop relative to the
previous history sample. -/
def checkQuickDropShort (strategies : String → Option StockStrategy)
    (orderOk : Bool) (now : Nat) (s : EngineState) (sym : String) (ltp : ℚ) :
    EngineState :=
  let hist := (lookupM s.ltpHistory sym).getD []
  let pos := (lookupM s.shortPositions sym).getD ⟨0, 0, 0, 0⟩
  if 0 < pos.EntryPrice ∨ hist.length < 2 then s
  else
    let prev := hist.getD (hist.length - 2) 0
    let drop := (prev - ltp) / prev
    if defaultQuickDrop ≤ drop then
      enterShort orderOk now s sym ltp (getStrategy strategies sym).Leverage
    else s

/-- The per-order outcomes of one poll cycle for one symbol: the result each
`placeOrder` call would report (all `true` in paper-trading mode). -/
structure OrderOutcomes where
  breakoutLong : Bool
  bounceBack : Bool
  breakdownShort : Bool
  quickDrop : Bool
  longExit : Bool
  shortExit : Bool
deriving DecidableEq

def allOrdersOk : OrderOutcomes := ⟨true, true, true, true, true, true⟩

/-- `checkAllEntries`: refuse every detector once the open-position cap is
reached, otherwise run the four detectors in source order (the short ones only
when the symbol is shortable). -/
def checkAllEntries (strategies : String → Option StockStrategy)
    (ok : OrderOutcomes) (now : Nat) (s : EngineState) (sym : String)
    (ltp : ℚ) : EngineState :=
  let totalOpen := s.longPositions.length + s.shortPositions.length
  if defaultMaxPositions ≤ totalOpen then s
  else
    let strat := getStrategy strategies sym
    let s1 := checkBreakoutLong strategies ok.breakoutLong now s sym ltp
      strat.BreakoutLong
    let s2 := checkBounceBackBuy strategies ok.bounceBack now s1 sym ltp
    if strat.AllowShort then
      let s3 := checkBreakdownShort strategies ok.breakdownShort now s2 sym ltp
        strat.BreakoutShort
      checkQuickDropShort strategies ok.quickDrop now s3 sym ltp
    else s2

/-- The body of the polling loop for one symbol after a successful price
fetch: history/range update, entry detectors, then the two exit checks. -/
def processSymbol (strategies : String → Option StockStrategy)
    (ok : OrderOutcomes) (now : Nat) (s : EngineState) (sym : String)
    (ltp : ℚ) : EngineState :=
  let s1 := updateHighLow s sym ltp
  let s2 := updateLTPHistory s1 sym ltp
  let s3 := checkAllEntries strategies ok now s2 sym ltp
  let s4 := checkLongExit strategies ok.longExit now s3 sym ltp
  checkShortExit strategies ok.shortExit now s4 sym ltp

/-- The polling loop's treatment of one symbol including the price fetch: a
failed fetch (`none`) skips the symbol for this cycle. -/
def pollSymbol (strategies : String → Option StockStrategy)
    (fetch : String → Option ℚ) (ok : OrderOutcomes) (now : Nat)
    (s : EngineState) (sym : String) : EngineState :=
  match fetch sym with
  | none => s
  | some ltp => processSymbol strategies ok now s sym ltp

/-- One observation step of a polling trace. -/
structure PollStep where
  sym : String
  ltp : ℚ
  ok : OrderOutcomes
  now : Nat

/-- Folding a polling trace through the per-symbol loop body. -/
def runTrace (strategies : String → Option StockStrategy) (s : EngineState)
    (tr : List PollStep) : EngineState :=
  tr.foldl (fun st step => processSymbol strategies step.ok step.now st step.sym step.ltp) s

/-- Long plus short open positions, across all symbols. -/
def totalOpen (s : EngineState) : Nat :=
  s.longPositions.length + s.shortPositions.length

/-- `exitLong` as called by a thread that may already hold the engine mutex
`mu` (`held`). After the closing order succeeds the Go function re-acquires
the non-reentrant `mu`; a caller that already holds it then blocks forever,
modeled as `none`. A failed order returns before touching the mutex, and a
caller that does not hold `mu` behaves exactly as `exitLong`. -/
def exitLongL (held : Bool) (orderOk : Bool) (now : Nat) (s : EngineState)
    (sym : String) (ltp : ℚ) (qty : Int) (reason : ExitReason) :
    Option EngineState :=
  if orderOk then
    if held then none
    else some (exitLong true now s sym ltp qty reason)
  else some s

/-- `exitShort` under the same mutex discipline as `exitLongL`. -/
def exitShortL (held : Bool) (orderOk : Bool) (now : Nat) (s : EngineState)
    (sym : String) (ltp : ℚ) (qty : Int) (reason : ExitReason) :
    Option EngineState :=
  if orderOk then
    if held then none
    else some (exitShort true now s sym ltp qty reason)
  else some s

/-- `squareOffAllPositions`: the function acquires `mu` and holds it
(`mu.Lock(); defer mu.Unlock()`) while calling `exitLong`/`exitShort` for
every open position at the fetched price (a failed fetch is discarded and the
Go zero value `0` is used). Because the exits re-acquire the same
non-reentrant mutex after a successful closing order, the first position
whose close order succeeds blocks the program forever — `none`; the loops run
to completion only when every closing order fails, which leaves the state
unchanged. -/
def squareOffAllPositions (fetch : String → Option ℚ)
    (closeOk : String → Bool) (now : Nat) (s : EngineState) :
    Option EngineState :=
  (s.longPositions.foldl (fun acc e => acc.bind (fun st =>
      exitLongL true (closeOk e.1) now st e.1 ((fetch e.1).getD 0) e.2.Qty
        ExitReason.eodSquareOff)) (some s)).bind
    (fun s1 => s1.shortPositions.foldl (fun acc e => acc.bind (fun st =>
      exitShortL true (closeOk e.1) now st e.1 ((fetch e.1).getD 0) e.2.Qty
        ExitReason.eodSquareOff)) (some s1))

/-- The long/short P&L accumulation loop of `printDailySummary` (a non-"LONG"
direction accumulates into the short total). -/
def longShortTotals (trades : List TradeRecord) : ℚ × ℚ :=
  trades.foldl
    (fun acc t => if t.Direction == "LONG" then (acc.1 + t.PnL, acc.2)
                  else (acc.1, acc.2 + t.PnL)) (0, 0)

/-- `printDailySummary`: report nothing on an empty ledger; otherwise emit the
summary and reset the ledger and `dailyPnL` for the next day. -/
def printDailySummary (now : Nat) (s : EngineState) : EngineState :=
  if s.tradeHistory.isEmpty then s
  else { s with tradeHistory := [], dailyPnL := 0, lastDailyReset := now }

/-- The cached session token owned by the `session` package. -/
structure SessionState where
  token : String
deriving DecidableEq

/-- The session-invalidation markers scanned for in raw response bodies. -/
def sessionMarkers : List String := ["Invalid Session Key", "Connection failed"]

/-- Character-list prefix test, the building block of substring search. -/
def charsStartWith : List Char → List Char → Bool
  | _, [] => true
  | [], _ :: _ => false
  | c :: cs, d :: ds => c == d && charsStartWith cs ds

/-- Substring occurrence on character lists, modelling Go `strings.Contains`. -/
def containsChars : List Char → List Char → Bool
  | [], pat => pat.isEmpty
  | c :: cs, pat => charsStartWith (c :: cs) pat || containsChars cs pat

/-- `strings.Contains(body, m)` for some session-invalidation marker `m`. -/
def containsMarker (body : String) : Bool :=
  sessionMarkers.any (fun m => containsChars body.data m.data)

/-- The observable outcome of one `MakeRequest` invocation: the returned value,
the session state afterwards, how many HTTP requests were issued to the
gateway, and how many re-authentication attempts were made. -/
structure RequestResult where
  result : Except String String
  session : SessionState
  requestsSent : Nat
  reauths : Nat

/-- `MakeRequest` of `part_002`: requires a cached token, issues the request
once (`send` maps the token used to the raw body, `none` being a transport
failure), scans the body for session-invalidation markers and, on a match,
re-authenticates (`reauth` is the `GetSessionToken` outcome) and stores the new
token on success; the original body is then returned.  The Go code also stores
the new token into the local `payload` map after the request has already been
sent, which has no further effect and is not represented. -/
def MakeRequest (send : String → Option String) (reauth : Option String)
    (st : SessionState) : RequestResult :=
  if st.token = "" then
    ⟨.error "no session token - authenticate first", st, 0, 0⟩
  else
    match send st.token with
    | none => ⟨.error "transport failure", st, 1, 0⟩
    | some body =>
      if containsMarker body then
        match reauth with
        | some newToken => ⟨.ok body, ⟨newToken⟩, 1, 1⟩
        | none => ⟨.ok body, st, 1, 1⟩
      else ⟨.ok body, st, 1, 0⟩

/-! ### Association-map lemmas -/

theorem lookupM_insertM_self {α : Type} (m : List (String × α)) (k : String)
    (v : α) : lookupM (insertM m k v) k = some v := by
  simp [insertM, lookupM]

theorem lookupM_eraseM_self {α : Type} (m : List (String × α)) (k : String) :
    lookupM (eraseM m k) k = none := by
  induction m with
  | nil => rfl
  | cons e t ih =>
      obtain ⟨ke, ve⟩ := e
      by_cases hk : ke = k
      · simpa [eraseM, hk] using ih
      · simp [eraseM, hk, lookupM, ih]

theorem lookupM_eraseM_ne {α : Type} (m : List (String × α)) (k k' : String)
    (h : k ≠ k') : lookupM (eraseM m k) k' = lookupM m k' := by
  induction m with
  | nil => rfl
  | cons e t ih =>
      obtain ⟨ke, ve⟩ := e
      simp only [eraseM, lookupM]
      by_cases hk : ke = k
      · rw [if_pos hk, ih, if_neg (fun hh : ke = k' => h ((hk.symm.trans hh)))]
      · rw [if_neg hk]
        by_cases hk' : ke = k'
        · simp only [lookupM, if_pos hk']
        · simp only [lookupM, if_neg hk', ih]

theorem lookupM_insertM_ne {α : Type} (m : List (String × α)) (k k' : String)
    (v : α) (h : k ≠ k') : lookupM (insertM m k v) k' = lookupM m k' := by
  simp only [insertM, lookupM, if_neg h]
  exact lookupM_eraseM_ne m k k' h

theorem length_eraseM_le {α : Type} (m : List (String × α)) (k : String) :
    (eraseM m k).length ≤ m.length := by
  induction m with
  | nil => simp [eraseM]
  | cons e t ih =>
      obtain ⟨ke, ve⟩ := e
      by_cases hk : ke = k
      · simp only [eraseM, if_pos hk, List.length_cons]
        omega
      · simp only [eraseM, if_neg hk, List.length_cons]
        omega

theorem length_eraseM_lt {α : Type} (m : List (String × α)) (k : String) (v : α)
    (h : lookupM m k = some v) : (eraseM m k).length < m.length := by
  induction m with
  | nil => simp [lookupM] at h
  | cons e t ih =>
      obtain ⟨ke, ve⟩ := e
      by_cases hk : ke = k
      · simp only [eraseM, if_pos hk, List.length_cons]
        exact Nat.lt_succ_of_le (length_eraseM_le t k)
      · simp only [lookupM, if_neg hk] at h
        simp only [eraseM, if_neg hk, List.length_cons]
        exact Nat.succ_lt_succ (ih h)

theorem length_insertM_le {α : Type} (m : List (String × α)) (k : String)
    (v : α) : (insertM m k v).length ≤ m.length + 1 := by
  simp only [insertM, List.length_cons]
  exact Nat.succ_le_succ (length_eraseM_le m k)

theorem length_insertM_of_mem {α : Type} (m : List (String × α)) (k : String)
    (v w : α) (h : lookupM m k = some w) : (insertM m k v).length ≤ m.length := by
  simp only [insertM, List.length_cons]
  exact length_eraseM_lt m k w h

theorem lookupM_some_mem {α : Type} (m : List (String × α)) (k : String)
    (v : α) (h : lookupM m k = some v) : (k, v) ∈ m := by
  induction m with
  | nil => simp [lookupM] at h
  | cons e t ih =>
      obtain ⟨ke, ve⟩ := e
      by_cases hk : ke = k
      · subst hk
        simp only [lookupM] at h
        simp only [if_true, Option.some.injEq] at h
        rw [← h]
        exact List.mem_cons_self _ _
      · simp only [lookupM, if_neg hk] at h
        exact List.mem_cons_of_mem _ (ih h)

/-! ### Price-history characterization -/

/-- The last `n` elements of a list. -/
def lastN (n : Nat) (l : List ℚ) : List ℚ := l.drop (l.length - n)

theorem lastN_nil (n : Nat) : lastN n [] = [] := by
  simp [lastN]

theorem length_lastN (n : Nat) (l : List ℚ) :
    (lastN n l).length = min n l.length := by
  simp only [lastN, List.length_drop]
  omega

theorem histStep_lastN (l : List ℚ) (p : ℚ) :
    histStep (lastN historyWindow l) p = lastN historyWindow (l ++ [p]) := by
  by_cases hlen : l.length < historyWindow
  · have h0 : l.length - historyWindow = 0 := by omega
    have h1 : (l ++ [p]).length - historyWindow = 0 := by
      simp only [List.length_append, List.length_cons, List.length_nil]
      omega
    have hc : ¬ historyWindow < (l ++ [p]).length := by
      simp only [List.length_append, List.length_cons, List.length_nil]
      simp only [historyWindow] at hlen ⊢
      omega
    simp only [lastN, h0, h1, List.drop_zero, histStep]
    rw [if_neg hc]
  · push_neg at hlen
    have hlw : (lastN historyWindow l).length = historyWindow := by
      simp only [lastN, List.length_drop]
      omega
    have hc : historyWindow < (lastN historyWindow l ++ [p]).length := by
      simp only [List.length_append, hlw, List.length_cons, List.length_nil]
      omega
    calc histStep (lastN historyWindow l) p
        = (lastN historyWindow l ++ [p]).drop 1 := by
          simp only [histStep, if_pos hc]
      _ = (lastN historyWindow l).drop 1 ++ [p] :=
          List.drop_append_of_le_length (by rw [hlw]; simp [historyWindow])
      _ = l.drop (l.length - historyWindow + 1) ++ [p] := by
          rw [lastN, List.drop_drop]
      _ = (l ++ [p]).drop ((l ++ [p]).length - historyWindow) := by
          have e1 : (l ++ [p]).length - historyWindow
              = l.length - historyWindow + 1 := by
            simp only [List.length_append, List.length_cons, List.length_nil]
            simp only [historyWindow] at hlen ⊢
            omega
          rw [e1, List.drop_append_of_le_length
            (by simp only [historyWindow] at hlen ⊢; omega)]
      _ = lastN historyWindow (l ++ [p]) := rfl

theorem foldl_histStep_lastN (ps : List ℚ) (l : List ℚ) :
    ps.foldl histStep (lastN historyWindow l) = lastN historyWindow (l ++ ps) := by
  induction ps generalizing l with
  | nil => rw [List.foldl_nil, List.append_nil]
  | cons p t ih =>
      rw [List.foldl_cons, histStep_lastN, ih (l ++ [p]), List.append_assoc]
      rfl

theorem foldl_histStep_nil (ps : List ℚ) :
    ps.foldl histStep [] = lastN historyWindow ps := by
  have h := foldl_histStep_lastN ps []
  rw [lastN_nil] at h
  rw [h, List.nil_append]

/-! ### Per-symbol factorization of the observation fold -/

/-- The subsequence of prices observed for one symbol, in arrival order. -/
def pricesOf (sym : String) (obs : List (String × ℚ)) : List ℚ :=
  (obs.filter (fun o => o.1 == sym)).map Prod.snd

/-- The per-symbol history cell (Go map indexing yields `[]` when absent). -/
def histOf (s : EngineState) (sym : String) : List ℚ :=
  (lookupM s.ltpHistory sym).getD []

/-- The per-symbol high/low cell (Go map indexing yields the zero value). -/
def hlOf (s : EngineState) (sym : String) : PriceRange :=
  (lookupM s.highLow sym).getD ⟨0, 0⟩

theorem pricesOf_cons_self (sym : String) (p : ℚ) (t : List (String × ℚ)) :
    pricesOf sym ((sym, p) :: t) = p :: pricesOf sym t := by
  simp [pricesOf]

theorem pricesOf_cons_ne (sym k : String) (p : ℚ) (t : List (String × ℚ))
    (h : k ≠ sym) : pricesOf sym ((k, p) :: t) = pricesOf sym t := by
  simp [pricesOf, h]

theorem ltpHistory_observe_self (s : EngineState) (k : String) (p : ℚ) :
    lookupM (observe s (k, p)).ltpHistory k = some (histStep (histOf s k) p) := by
  simp only [observe, updateLTPHistory, updateHighLow, histOf]
  exact lookupM_insertM_self _ _ _

theorem ltpHistory_observe_ne (s : EngineState) (k sym : String) (p : ℚ)
    (h : k ≠ sym) :
    lookupM (observe s (k, p)).ltpHistory sym = lookupM s.ltpHistory sym := by
  simp only [observe, updateLTPHistory, updateHighLow]
  exact lookupM_insertM_ne _ _ _ _ h

theorem highLow_observe_self (s : EngineState) (k : String) (p : ℚ) :
    lookupM (observe s (k, p)).highLow k = some (hlStep (hlOf s k) p) := by
  simp only [observe, updateLTPHistory, updateHighLow, hlOf]
  exact lookupM_insertM_self _ _ _

theorem highLow_observe_ne (s : EngineState) (k sym : String) (p : ℚ)
    (h : k ≠ sym) :
    lookupM (observe s (k, p)).highLow sym = lookupM s.highLow sym := by
  simp only [observe, updateLTPHistory, updateHighLow]
  exact lookupM_insertM_ne _ _ _ _ h

theorem lookupHist_fold (obs : List (String × ℚ)) (s : EngineState)
    (sym : String) :
    lookupM (obs.foldl observe s).ltpHistory sym
      = if pricesOf sym obs = [] then lookupM s.ltpHistory sym
        else some ((pricesOf sym obs).foldl histStep (histOf s sym)) := by
  induction obs generalizing s with
  | nil => simp [pricesOf]
  | cons o t ih =>
      obtain ⟨k, p⟩ := o
      by_cases hk : k = sym
      · subst hk
        rw [List.foldl_cons, ih, pricesOf_cons_self]
        have hist' : histOf (observe s (k, p)) k = histStep (histOf s k) p := by
          simp only [histOf, ltpHistory_observe_self, Option.getD_some]
        by_cases ht : pricesOf k t = []
        · rw [ht, if_pos rfl, ltpHistory_observe_self,
            if_neg (List.cons_ne_nil p [])]
          rfl
        · rw [if_neg ht, if_neg (List.cons_ne_nil p (pricesOf k t)), hist',
            List.foldl_cons]
      · rw [List.foldl_cons, ih, pricesOf_cons_ne sym k p t hk]
        have hist' : histOf (observe s (k, p)) sym = histOf s sym := by
          simp only [histOf, ltpHistory_observe_ne s k sym p hk]
        rw [hist', ltpHistory_observe_ne s k sym p hk]

theorem lookupHL_fold (obs : List (String × ℚ)) (s : EngineState)
    (sym : String) :
    lookupM (obs.foldl observe s).highLow sym
      = if pricesOf sym obs = [] then lookupM s.highLow sym
        else some ((pricesOf sym obs).foldl hlStep (hlOf s sym)) := by
  induction obs generalizing s with
  | nil => simp [pricesOf]
  | cons o t ih =>
      obtain ⟨k, p⟩ := o
      by_cases hk : k = sym
      · subst hk
        rw [List.foldl_cons, ih, pricesOf_cons_self]
        have hl' : hlOf (observe s (k, p)) k = hlStep (hlOf s k) p := by
          simp only [hlOf, highLow_observe_self, Option.getD_some]
        by_cases ht : pricesOf k t = []
        · rw [ht, if_pos rfl, highLow_observe_self,
            if_neg (List.cons_ne_nil p [])]
          rfl
        · rw [if_neg ht, if_neg (List.cons_ne_nil p (pricesOf k t)), hl',
            List.foldl_cons]
      · rw [List.foldl_cons, ih, pricesOf_cons_ne sym k p t hk]
        have hl' : hlOf (observe s (k, p)) sym = hlOf s sym := by
          simp only [hlOf, highLow_observe_ne s k sym p hk]
        rw [hl', highLow_observe_ne s k sym p hk]

/-! ### Scalar high/low dynamics -/

/-- The `High` component of one `updateHighLow` step. -/
def hStep (h v : ℚ) : ℚ := if h = 0 ∨ v > h then v else h

/-- The `Low` component of one `updateHighLow` step. -/
def lStep (l v : ℚ) : ℚ := if l = 0 ∨ v < l then v else l

theorem foldl_hlStep_High (ps : List ℚ) (hl : PriceRange) :
    (ps.foldl hlStep hl).High = ps.foldl hStep hl.High := by
  induction ps generalizing hl with
  | nil => rfl
  | cons p t ih =>
      rw [List.foldl_cons, List.foldl_cons, ih]
      rfl

theorem foldl_hlStep_Low (ps : List ℚ) (hl : PriceRange) :
    (ps.foldl hlStep hl).Low = ps.foldl lStep hl.Low := by
  induction ps generalizing hl with
  | nil => rfl
  | cons p t ih =>
      rw [List.foldl_cons, List.foldl_cons, ih]
      rfl

theorem hStep_eq_pos (h v : ℚ) (hc : h = 0 ∨ h < v) : hStep h v = v := by
  rw [hStep]
  exact if_pos hc

theorem hStep_eq_neg (h v : ℚ) (hc : ¬(h = 0 ∨ h < v)) : hStep h v = h := by
  rw [hStep]
  exact if_neg hc

theorem lStep_eq_pos (l v : ℚ) (hc : l = 0 ∨ v < l) : lStep l v = v := by
  rw [lStep]
  exact if_pos hc

theorem lStep_eq_neg (l v : ℚ) (hc : ¬(l = 0 ∨ v < l)) : lStep l v = l := by
  rw [lStep]
  exact if_neg hc

theorem hStep_replay_aux (s : List ℚ) : ∀ y z : ℚ,
    (z = y ∨ (z = s.foldl hStep y ∧ s.foldl hStep y ≠ 0 ∧
       (y = 0 ∨ y ≤ s.foldl hStep y))) →
    s.foldl hStep z = s.foldl hStep y := by
  induction s with
  | nil =>
      intro y z h
      rcases h with h | ⟨h, _, _⟩ <;> simpa using h
  | cons v t ih =>
      intro y z h
      rw [List.foldl_cons, List.foldl_cons]
      apply ih (hStep y v) (hStep z v)
      rcases h with h | ⟨hz, hC, hy⟩
      · exact Or.inl (by rw [h])
      · rw [List.foldl_cons] at hz hC hy
        by_cases hvC : t.foldl hStep (hStep y v) < v
        · refine Or.inl ?_
          have hyv : hStep y v = v := by
            rcases hy with hy0 | hyle
            · exact hStep_eq_pos y v (Or.inl hy0)
            · exact hStep_eq_pos y v (Or.inr (lt_of_le_of_lt hyle hvC))
          rw [hz, hStep_eq_pos _ v (Or.inr hvC), hyv]
        · refine Or.inr ⟨?_, hC, ?_⟩
          · rw [hz]
            exact hStep_eq_neg _ v (by rintro (h0 | hlt)
                                       exacts [hC h0, hvC hlt])
          · by_cases hcond : y = 0 ∨ y < v
            · have hyv : hStep y v = v := hStep_eq_pos y v hcond
              rw [hyv] at hvC ⊢
              exact Or.inr (not_lt.mp hvC)
            · have hyv : hStep y v = y := hStep_eq_neg y v hcond
              push_neg at hcond
              rw [hyv] at hy ⊢
              rcases hy with hy0 | hyle
              · exact absurd hy0 hcond.1
              · exact Or.inr hyle

theorem lStep_replay_aux (s : List ℚ) : ∀ y z : ℚ,
    (z = y ∨ (z = s.foldl lStep y ∧ s.foldl lStep y ≠ 0 ∧
       (y = 0 ∨ s.foldl lStep y ≤ y))) →
    s.foldl lStep z = s.foldl lStep y := by
  induction s with
  | nil =>
      intro y z h
      rcases h with h | ⟨h, _, _⟩ <;> simpa using h
  | cons v t ih =>
      intro y z h
      rw [List.foldl_cons, List.foldl_cons]
      apply ih (lStep y v) (lStep z v)
      rcases h with h | ⟨hz, hC, hy⟩
      · exact Or.inl (by rw [h])
      · rw [List.foldl_cons] at hz hC hy
        by_cases hvC : v < t.foldl lStep (lStep y v)
        · refine Or.inl ?_
          have hyv : lStep y v = v := by
            rcases hy with hy0 | hyle
            · exact lStep_eq_pos y v (Or.inl hy0)
            · exact lStep_eq_pos y v (Or.inr (lt_of_lt_of_le hvC hyle))
          rw [hz, lStep_eq_pos _ v (Or.inr hvC), hyv]
        · refine Or.inr ⟨?_, hC, ?_⟩
          · rw [hz]
            exact lStep_eq_neg _ v (by rintro (h0 | hlt)
                                       exacts [hC h0, hvC hlt])
          · by_cases hcond : y = 0 ∨ v < y
            · have hyv : lStep y v = v := lStep_eq_pos y v hcond
              rw [hyv] at hvC ⊢
              exact Or.inr (not_lt.mp hvC)
            · have hyv : lStep y v = y := lStep_eq_neg y v hcond
              push_neg at hcond
              rw [hyv] at hy ⊢
              rcases hy with hy0 | hyle
              · exact absurd hy0 hcond.1
              · exact Or.inr hyle

theorem hStep_replay (s : List ℚ) :
    s.foldl hStep (s.foldl hStep 0) = s.foldl hStep 0 := by
  apply hStep_replay_aux
  by_cases h : s.foldl hStep 0 = 0
  · exact Or.inl h
  · exact Or.inr ⟨rfl, h, Or.inl rfl⟩

theorem lStep_replay (s : List ℚ) :
    s.foldl lStep (s.foldl lStep 0) = s.foldl lStep 0 := by
  apply lStep_replay_aux
  by_cases h : s.foldl lStep 0 = 0
  · exact Or.inl h
  · exact Or.inr ⟨rfl, h, Or.inl rfl⟩

theorem hStep_ne_zero (a p : ℚ) (hp : p ≠ 0) : hStep a p ≠ 0 := by
  rw [hStep]
  split
  · exact hp
  · rename_i hcond
    push_neg at hcond
    exact hcond.1

theorem lStep_ne_zero (a p : ℚ) (hp : p ≠ 0) : lStep a p ≠ 0 := by
  rw [lStep]
  split
  · exact hp
  · rename_i hcond
    push_neg at hcond
    exact hcond.1

theorem foldl_hStep_mono (ps : List ℚ) : ∀ a : ℚ, a ≠ 0 →
    (∀ p ∈ ps, p ≠ 0) → a ≤ ps.foldl hStep a ∧ ps.foldl hStep a ≠ 0 := by
  induction ps with
  | nil => exact fun a ha _ => ⟨le_refl a, ha⟩
  | cons p t ih =>
      intro a ha hps
      have hp : p ≠ 0 := hps p (List.mem_cons_self p t)
      have hstep : a ≤ hStep a p := by
        rw [hStep]
        split
        · rename_i hcond
          rcases hcond with h0 | hlt
          · exact absurd h0 ha
          · exact le_of_lt hlt
        · exact le_refl a
      have ih' := ih (hStep a p) (hStep_ne_zero a p hp)
        (fun q hq => hps q (List.mem_cons_of_mem p hq))
      exact ⟨le_trans hstep (by simpa using ih'.1), by simpa using ih'.2⟩

theorem foldl_lStep_mono (ps : List ℚ) : ∀ a : ℚ, a ≠ 0 →
    (∀ p ∈ ps, p ≠ 0) → ps.foldl lStep a ≤ a ∧ ps.foldl lStep a ≠ 0 := by
  induction ps with
  | nil => exact fun a ha _ => ⟨le_refl a, ha⟩
  | cons p t ih =>
      intro a ha hps
      have hp : p ≠ 0 := hps p (List.mem_cons_self p t)
      have hstep : lStep a p ≤ a := by
        rw [lStep]
        split
        · rename_i hcond
          rcases hcond with h0 | hlt
          · exact absurd h0 ha
          · exact le_of_lt hlt
        · exact le_refl a
      have ih' := ih (lStep a p) (lStep_ne_zero a p hp)
        (fun q hq => hps q (List.mem_cons_of_mem p hq))
      exact ⟨le_trans (by simpa using ih'.1) hstep, by simpa using ih'.2⟩

/-! ### Tracker-level corollaries -/

theorem pricesOf_append (sym : String) (a b : List (String × ℚ)) :
    pricesOf sym (a ++ b) = pricesOf sym a ++ pricesOf sym b := by
  simp [pricesOf, List.filter_append]

theorem hlOf_fold_init (obs : List (String × ℚ)) (sym : String) :
    hlOf (obs.foldl observe initState) sym
      = (pricesOf sym obs).foldl hlStep ⟨0, 0⟩ := by
  rw [hlOf, lookupHL_fold]
  by_cases h : pricesOf sym obs = []
  · rw [if_pos h, h, List.foldl_nil]
    rfl
  · rw [if_neg h, Option.getD_some]
    rfl

theorem histOf_fold_init (obs : List (String × ℚ)) (sym : String) :
    histOf (obs.foldl observe initState) sym
      = (pricesOf sym obs).foldl histStep [] := by
  rw [histOf, lookupHist_fold]
  by_cases h : pricesOf sym obs = []
  · rw [if_pos h, h, List.foldl_nil]
    rfl
  · rw [if_neg h, Option.getD_some]
    rfl

theorem foldl_hStep_ne_zero (ps : List ℚ) (hne : ps ≠ [])
    (hnz : ∀ p ∈ ps, p ≠ 0) : ps.foldl hStep 0 ≠ 0 := by
  cases ps with
  | nil => exact absurd rfl hne
  | cons q qs =>
      rw [List.foldl_cons, hStep_eq_pos 0 q (Or.inl rfl)]
      exact (foldl_hStep_mono qs q (hnz q (List.mem_cons_self q qs))
        (fun r hr => hnz r (List.mem_cons_of_mem q hr))).2

theorem foldl_lStep_ne_zero (ps : List ℚ) (hne : ps ≠ [])
    (hnz : ∀ p ∈ ps, p ≠ 0) : ps.foldl lStep 0 ≠ 0 := by
  cases ps with
  | nil => exact absurd rfl hne
  | cons q qs =>
      rw [List.foldl_cons, lStep_eq_pos 0 q (Or.inl rfl)]
      exact (foldl_lStep_mono qs q (hnz q (List.mem_cons_self q qs))
        (fun r hr => hnz r (List.mem_cons_of_mem q hr))).2

theorem PriceRange.ext2 (a b : PriceRange) (h1 : a.High = b.High)
    (h2 : a.Low = b.Low) : a = b := by
  cases a
  cases b
  simp only at h1 h2
  rw [h1, h2]

theorem lastN_append_self (ps : List ℚ) (h : historyWindow ≤ ps.length) :
    lastN historyWindow (ps ++ ps) = lastN historyWindow ps := by
  unfold lastN
  have e : (ps ++ ps).length - historyWindow
      = ps.length + (ps.length - historyWindow) := by
    simp only [List.length_append]
    omega
  rw [e, ← List.drop_drop, List.drop_left]

/-- C7: over any interleaved observation sequence from process start, a
symbol's `PriceHistory` is exactly the last `min(historyWindow, observed)`
prices observed for that symbol, in arrival order; in particular its length
never exceeds the window (default 3). -/
theorem c7_history_window (obs : List (String × ℚ)) (sym : String) :
    histOf (obs.foldl observe initState) sym
      = lastN historyWindow (pricesOf sym obs)
    ∧ (histOf (obs.foldl observe initState) sym).length ≤ historyWindow
    ∧ (histOf (obs.foldl observe initState) sym).length
        = min historyWindow (pricesOf sym obs).length := by
  have h1 : histOf (obs.foldl observe initState) sym
      = lastN historyWindow (pricesOf sym obs) := by
    rw [histOf_fold_init, foldl_histStep_nil]
  refine ⟨h1, ?_, ?_⟩
  · rw [h1, length_lastN]
    exact Nat.min_le_left _ _
  · rw [h1, length_lastN]

/-- C6 counterexample: the claim asserts `Low` is non-increasing for every
price sequence, but after observing 5 then 0 the stored low is the sentinel 0,
and a further observation of 3 raises it back to 3. -/
theorem c6_counterexample :
    (hlOf (([("A", 5), ("A", 0)] : List (String × ℚ)).foldl observe initState)
      "A").Low = 0
    ∧ (hlOf (([("A", 5), ("A", 0), ("A", 3)] : List (String × ℚ)).foldl observe
      initState) "A").Low = 3
    ∧ ¬ ((3 : ℚ) ≤ 0) := by
  decide

/-- C6 (amended): immediately after the first observation for a symbol, both
`high` and `low` equal that first price; and provided no observed price is `0`
(the "unset" sentinel), `high` is non-decreasing and `low` non-increasing
thereafter. -/
theorem c6_highlow_first_and_monotone (obs ext : List (String × ℚ))
    (sym : String) (p : ℚ) :
    (pricesOf sym obs = [p] →
      lookupM (obs.foldl observe initState).highLow sym = some ⟨p, p⟩)
    ∧ (pricesOf sym obs ≠ [] →
       (∀ q ∈ pricesOf sym (obs ++ ext), q ≠ 0) →
       (hlOf (obs.foldl observe initState) sym).High
         ≤ (hlOf ((obs ++ ext).foldl observe initState) sym).High
       ∧ (hlOf ((obs ++ ext).foldl observe initState) sym).Low
         ≤ (hlOf (obs.foldl observe initState) sym).Low) := by
  constructor
  · intro hp
    rw [lookupHL_fold, hp, if_neg (List.cons_ne_nil p [])]
    simp [hlOf, initState, lookupM, hlStep]
  · intro hne hnz
    have hsp := pricesOf_append sym obs ext
    have hnzo : ∀ q ∈ pricesOf sym obs, q ≠ 0 := fun q hq =>
      hnz q (by rw [hsp]; exact List.mem_append_left _ hq)
    have hnze : ∀ q ∈ pricesOf sym ext, q ≠ 0 := fun q hq =>
      hnz q (by rw [hsp]; exact List.mem_append_right _ hq)
    have hA : (pricesOf sym obs).foldl hStep 0 ≠ 0 :=
      foldl_hStep_ne_zero _ hne hnzo
    have hAl : (pricesOf sym obs).foldl lStep 0 ≠ 0 :=
      foldl_lStep_ne_zero _ hne hnzo
    constructor
    · rw [hlOf_fold_init, hlOf_fold_init, hsp, List.foldl_append]
      rw [foldl_hlStep_High, foldl_hlStep_High, foldl_hlStep_High]
      exact (foldl_hStep_mono (pricesOf sym ext) _ hA hnze).1
    · rw [hlOf_fold_init, hlOf_fold_init, hsp, List.foldl_append]
      rw [foldl_hlStep_Low, foldl_hlStep_Low]
      exact (foldl_lStep_mono (pricesOf sym ext) _ hAl hnze).1

theorem c6_witness :
    pricesOf "A" ([("A", 5)] : List (String × ℚ)) = [5]
    ∧ lookupM (([("A", 5)] : List (String × ℚ)).foldl observe
        initState).highLow "A" = some ⟨5, 5⟩
    ∧ (hlOf (([("A", 5)] : List (String × ℚ)).foldl observe initState) "A").High
        ≤ (hlOf (([("A", 5), ("A", 7)] : List (String × ℚ)).foldl observe
          initState) "A").High
    ∧ (hlOf (([("A", 5), ("A", 7)] : List (String × ℚ)).foldl observe
        initState) "A").Low
        ≤ (hlOf (([("A", 5)] : List (String × ℚ)).foldl observe initState)
          "A").Low := by
  have h1 := (c6_highlow_first_and_monotone [("A", 5)] [("A", 7)] "A" 5).1
    (by decide)
  have h2 := (c6_highlow_first_and_monotone [("A", 5)] [("A", 7)] "A" 5).2
    (by decide) (by decide)
  exact ⟨by decide, h1, h2.1, h2.2⟩

/-- C8 counterexample: replaying the two-observation sequence 1, 2 for symbol
"A" leaves a three-element history `[2, 1, 2]`, not the single-pass `[1, 2]`,
so feeding a sequence twice is not always identical to feeding it once. -/
theorem c8_counterexample :
    lookupM ((([("A", 1), ("A", 2)] ++ [("A", 1), ("A", 2)]) :
        List (String × ℚ)).foldl observe initState).ltpHistory "A"
      = some [2, 1, 2]
    ∧ lookupM (([("A", 1), ("A", 2)] : List (String × ℚ)).foldl observe
        initState).ltpHistory "A" = some [1, 2]
    ∧ (some [2, 1, 2] : Option (List ℚ)) ≠ some [1, 2] := by
  decide

/-- C8 (amended): `observe` is a total function of the state; replaying an
observation sequence leaves every symbol's `PriceRange` identical, and leaves
the symbol's `PriceHistory` identical provided the symbol was observed either
not at all or at least `historyWindow` times in the sequence. -/
theorem c8_observe_replay (obs : List (String × ℚ)) (sym : String) :
    lookupM ((obs ++ obs).foldl observe initState).highLow sym
      = lookupM (obs.foldl observe initState).highLow sym
    ∧ ((pricesOf sym obs).length = 0
        ∨ historyWindow ≤ (pricesOf sym obs).length →
       lookupM ((obs ++ obs).foldl observe initState).ltpHistory sym
         = lookupM (obs.foldl observe initState).ltpHistory sym) := by
  have hsp := pricesOf_append sym obs obs
  constructor
  · rw [lookupHL_fold, lookupHL_fold, hsp]
    by_cases h : pricesOf sym obs = []
    · rw [h]
      simp
    · rw [if_neg h, if_neg (by
        intro hc
        exact h (List.append_eq_nil.mp hc).1)]
      congr 1
      rw [List.foldl_append]
      apply PriceRange.ext2
      · rw [foldl_hlStep_High, foldl_hlStep_High]
        exact hStep_replay (pricesOf sym obs)
      · rw [foldl_hlStep_Low, foldl_hlStep_Low]
        exact lStep_replay (pricesOf sym obs)
  · intro hlen
    rw [lookupHist_fold, lookupHist_fold, hsp]
    by_cases h : pricesOf sym obs = []
    · rw [h]
      simp
    · rw [if_neg h, if_neg (by
        intro hc
        exact h (List.append_eq_nil.mp hc).1)]
      congr 1
      have hw : historyWindow ≤ (pricesOf sym obs).length := by
        rcases hlen with h0 | hw
        · exact absurd (List.eq_nil_of_length_eq_zero h0) h
        · exact hw
      have hinit : histOf initState sym = [] := rfl
      rw [hinit, foldl_histStep_nil, foldl_histStep_nil,
        lastN_append_self _ hw]

theorem c8_witness :
    ((pricesOf "A" ([("A", 1), ("A", 2), ("A", 3)] : List (String × ℚ))).length
        = 0
      ∨ historyWindow ≤ (pricesOf "A"
        ([("A", 1), ("A", 2), ("A", 3)] : List (String × ℚ))).length)
    ∧ lookupM ((([("A", 1), ("A", 2), ("A", 3)] ++
        [("A", 1), ("A", 2), ("A", 3)]) : List (String × ℚ)).foldl observe
        initState).ltpHistory "A"
      = lookupM (([("A", 1), ("A", 2), ("A", 3)] :
        List (String × ℚ)).foldl observe initState).ltpHistory "A" := by
  exact ⟨by decide,
    (c8_observe_replay [("A", 1), ("A", 2), ("A", 3)] "A").2 (by decide)⟩

/-- C4 counterexample: with cached token "T0" and a response body consisting of
the invalidation marker, `MakeRequest` issues exactly one request — there is no
retried call (the claim requires a second request with the new token) — and
when re-authentication fails the original body is still returned with no
error, instead of the call being abandoned with an error. -/
theorem c4_counterexample :
    (MakeRequest (fun _ => some "Invalid Session Key") (some "T1")
      ⟨"T0"⟩).requestsSent = 1
    ∧ (MakeRequest (fun _ => some "Invalid Session Key") (some "T1")
      ⟨"T0"⟩).requestsSent ≠ 2
    ∧ (MakeRequest (fun _ => some "Invalid Session Key") none ⟨"T0"⟩).result
      = Except.ok "Invalid Session Key" := by
  refine ⟨rfl, by decide, rfl⟩

/-- C4 (amended): on a response body containing a session-invalidation marker,
`MakeRequest` re-authenticates exactly once and, on success, replaces the
cached token, but it does not retry the original call: exactly one request is
issued, the original body is returned with no error, and a failed
re-authentication is silently ignored (token unchanged, same body returned,
still no error); no invocation ever issues a second request or re-authenticates
twice. -/
theorem c4_single_shot (send : String → Option String) (reauth : Option String)
    (st : SessionState) (body : String)
    (ht : st.token ≠ "") (hsend : send st.token = some body)
    (hmark : containsMarker body = true) :
    (MakeRequest send reauth st).result = .ok body
    ∧ (MakeRequest send reauth st).requestsSent = 1
    ∧ (MakeRequest send reauth st).reauths = 1
    ∧ (MakeRequest send reauth st).session
        = (match reauth with
           | some newToken => ⟨newToken⟩
           | none => st)
    ∧ (∀ (send' : String → Option String) (reauth' : Option String)
        (st' : SessionState), (MakeRequest send' reauth' st').requestsSent ≤ 1
        ∧ (MakeRequest send' reauth' st').reauths ≤ 1) := by
  have hnoloop : ∀ (send' : String → Option String) (reauth' : Option String)
      (st' : SessionState), (MakeRequest send' reauth' st').requestsSent ≤ 1
      ∧ (MakeRequest send' reauth' st').reauths ≤ 1 := by
    intro send' reauth' st'
    unfold MakeRequest
    split
    · exact ⟨Nat.zero_le 1, Nat.zero_le 1⟩
    · split
      · exact ⟨le_refl 1, Nat.zero_le 1⟩
      · split
        · split
          · exact ⟨le_refl 1, le_refl 1⟩
          · exact ⟨le_refl 1, le_refl 1⟩
        · exact ⟨le_refl 1, Nat.zero_le 1⟩
  refine ⟨?_, ?_, ?_, ?_, hnoloop⟩ <;>
    · unfold MakeRequest
      rw [if_neg ht, hsend]
      cases reauth <;> simp [hmark]

theorem c4_witness :
    (⟨"T0"⟩ : SessionState).token ≠ ""
    ∧ containsMarker "Invalid Session Key" = true
    ∧ (MakeRequest (fun _ => some "Invalid Session Key") (some "T1")
        ⟨"T0"⟩).result = Except.ok "Invalid Session Key"
    ∧ (MakeRequest (fun _ => some "Invalid Session Key") (some "T1")
        ⟨"T0"⟩).session = ⟨"T1"⟩ := by
  have h := c4_single_shot (fun _ => some "Invalid Session Key") (some "T1")
    ⟨"T0"⟩ "Invalid Session Key" (by decide) rfl (by decide)
  exact ⟨by decide, by decide, h.1, h.2.2.2.1⟩

/-! ### Daily ledger -/

theorem foldl_logTradeRecord (trades : List TradeRecord) : ∀ s : EngineState,
    (trades.foldl logTradeRecord s).tradeHistory = s.tradeHistory ++ trades
    ∧ (trades.foldl logTradeRecord s).dailyPnL
        = s.dailyPnL + (trades.map TradeRecord.PnL).sum := by
  induction trades with
  | nil =>
      intro s
      constructor
      · rw [List.foldl_nil, List.append_nil]
      · rw [List.foldl_nil, List.map_nil, List.sum_nil, add_zero]
  | cons t ts ih =>
      intro s
      rw [List.foldl_cons]
      obtain ⟨h1, h2⟩ := ih (logTradeRecord s t)
      constructor
      · rw [h1]
        show (s.tradeHistory ++ [t]) ++ ts = s.tradeHistory ++ t :: ts
        rw [List.append_assoc]
        rfl
      · rw [h2]
        show (s.dailyPnL + t.PnL) + (ts.map TradeRecord.PnL).sum
          = s.dailyPnL + ((t :: ts).map TradeRecord.PnL).sum
        rw [List.map_cons, List.sum_cons, add_assoc]

theorem longShortTotals_spec (trades : List TradeRecord) : ∀ acc : ℚ × ℚ,
    trades.foldl
      (fun acc t => if t.Direction == "LONG" then (acc.1 + t.PnL, acc.2)
                    else (acc.1, acc.2 + t.PnL)) acc
    = (acc.1 + ((trades.filter (fun t => t.Direction == "LONG")).map
        TradeRecord.PnL).sum,
       acc.2 + ((trades.filter (fun t => !(t.Direction == "LONG"))).map
        TradeRecord.PnL).sum) := by
  induction trades with
  | nil =>
      intro acc
      simp
  | cons t ts ih =>
      intro acc
      rw [List.foldl_cons]
      cases hd : (t.Direction == "LONG") with
      | true =>
          have hf1 : (t :: ts).filter (fun t => t.Direction == "LONG")
              = t :: ts.filter (fun t => t.Direction == "LONG") := by
            simp [List.filter_cons, hd]
          have hf2 : (t :: ts).filter (fun t => !(t.Direction == "LONG"))
              = ts.filter (fun t => !(t.Direction == "LONG")) := by
            simp [List.filter_cons, hd]
          rw [if_pos rfl, ih, hf1, hf2, List.map_cons, List.sum_cons,
            Prod.mk.injEq]
          exact ⟨by ring, rfl⟩
      | false =>
          have hf1 : (t :: ts).filter (fun t => t.Direction == "LONG")
              = ts.filter (fun t => t.Direction == "LONG") := by
            simp [List.filter_cons, hd]
          have hf2 : (t :: ts).filter (fun t => !(t.Direction == "LONG"))
              = t :: ts.filter (fun t => !(t.Direction == "LONG")) := by
            simp [List.filter_cons, hd]
          rw [if_neg (by simp), ih, hf1, hf2, List.map_cons,
            List.sum_cons, Prod.mk.injEq]
          exact ⟨rfl, by ring⟩

/-- C9: recording closed trades on a reset ledger makes `dailyPnL` the sum of
their realized P&L values, the summary's long/short accumulations equal the
totals over the corresponding subsets, and a subsequent daily-summary call
leaves the trade history empty and `dailyPnL` at 0. -/
theorem c9_daily_ledger (s0 : EngineState) (trades : List TradeRecord)
    (now : Nat) (h0 : s0.tradeHistory = []) (hp : s0.dailyPnL = 0) :
    (trades.foldl logTradeRecord s0).dailyPnL = (trades.map TradeRecord.PnL).sum
    ∧ (trades.foldl logTradeRecord s0).tradeHistory = trades
    ∧ longShortTotals (trades.foldl logTradeRecord s0).tradeHistory
        = (((trades.filter (fun t => t.Direction == "LONG")).map
            TradeRecord.PnL).sum,
           ((trades.filter (fun t => !(t.Direction == "LONG"))).map
            TradeRecord.PnL).sum)
    ∧ (printDailySummary now (trades.foldl logTradeRecord s0)).tradeHistory = []
    ∧ (printDailySummary now (trades.foldl logTradeRecord s0)).dailyPnL
        = 0 := by
  obtain ⟨hh, hd⟩ := foldl_logTradeRecord trades s0
  rw [h0, List.nil_append] at hh
  rw [hp, zero_add] at hd
  refine ⟨hd, hh, ?_, ?_, ?_⟩
  · rw [longShortTotals, hh, longShortTotals_spec]
    rw [zero_add, zero_add]
  · rw [printDailySummary]
    split
    · rename_i hemp
      rw [List.isEmpty_iff] at hemp
      exact hemp
    · rfl
  · rw [printDailySummary]
    split
    · rename_i hemp
      rw [List.isEmpty_iff] at hemp
      rw [hd]
      rw [hemp] at hh
      rw [← hh, List.map_nil, List.sum_nil]
    · rfl

theorem c9_witness :
    initState.tradeHistory = [] ∧ initState.dailyPnL = 0
    ∧ (([⟨"X", "LONG", 0, 100, 1, 110, 1, 100, .trailingSL⟩,
         ⟨"Y", "SHORT", 0, 50, 1, 90, 1, -40, .fixedSL (1/100)⟩,
         ⟨"Z", "LONG", 0, 10, 1, 35, 1, 25, .target (2/100)⟩] :
        List TradeRecord).foldl logTradeRecord initState).dailyPnL = 85
    ∧ longShortTotals (([⟨"X", "LONG", 0, 100, 1, 110, 1, 100, .trailingSL⟩,
         ⟨"Y", "SHORT", 0, 50, 1, 90, 1, -40, .fixedSL (1/100)⟩,
         ⟨"Z", "LONG", 0, 10, 1, 35, 1, 25, .target (2/100)⟩] :
        List TradeRecord).foldl logTradeRecord initState).tradeHistory
        = (125, -40)
    ∧ (printDailySummary 2 (([⟨"X", "LONG", 0, 100, 1, 110, 1, 100,
          .trailingSL⟩,
         ⟨"Y", "SHORT", 0, 50, 1, 90, 1, -40, .fixedSL (1/100)⟩,
         ⟨"Z", "LONG", 0, 10, 1, 35, 1, 25, .target (2/100)⟩] :
        List TradeRecord).foldl logTradeRecord initState)).tradeHistory = []
    ∧ (printDailySummary 2 (([⟨"X", "LONG", 0, 100, 1, 110, 1, 100,
          .trailingSL⟩,
         ⟨"Y", "SHORT", 0, 50, 1, 90, 1, -40, .fixedSL (1/100)⟩,
         ⟨"Z", "LONG", 0, 10, 1, 35, 1, 25, .target (2/100)⟩] :
        List TradeRecord).foldl logTradeRecord initState)).dailyPnL = 0 := by
  have h := c9_daily_ledger initState
    [⟨"X", "LONG", 0, 100, 1, 110, 1, 100, .trailingSL⟩,
     ⟨"Y", "SHORT", 0, 50, 1, 90, 1, -40, .fixedSL (1/100)⟩,
     ⟨"Z", "LONG", 0, 10, 1, 35, 1, 25, .target (2/100)⟩] 2 rfl rfl
  refine ⟨rfl, rfl, ?_, ?_, h.2.2.2.1, h.2.2.2.2⟩
  · rw [h.1]
    simp only [List.map_cons, List.map_nil, List.sum_cons, List.sum_nil]
    norm_num
  · rw [h.2.2.1]
    norm_num [List.filter_cons, List.filter_nil, List.map_cons, List.map_nil,
      List.sum_cons, List.sum_nil, Prod.mk.injEq,
      show ("SHORT" : String) ≠ "LONG" from by decide]

/-! ### Exit-path lemmas -/

theorem exitLong_false (now : Nat) (s : EngineState) (sym : String) (ltp : ℚ)
    (qty : Int) (reason : ExitReason) :
    exitLong false now s sym ltp qty reason = s := rfl

theorem exitShort_false (now : Nat) (s : EngineState) (sym : String) (ltp : ℚ)
    (qty : Int) (reason : ExitReason) :
    exitShort false now s sym ltp qty reason = s := rfl

/-- C5: a failed closing order leaves the engine state unchanged by the exit
itself; in the surrounding exit check only the favorable-extreme bookkeeping
persists and the position stays in the open set, to be re-evaluated next
cycle; an exit check removes a position only when the closing order reported
success. -/
theorem c5_failed_close_retains_position
    (strategies : String → Option StockStrategy) (now : Nat) (s : EngineState)
    (sym : String) (ltp : ℚ) (qty : Int) (reason : ExitReason) (p : LongPos)
    (q : ShortPos) :
    exitLong false now s sym ltp qty reason = s
    ∧ exitShort false now s sym ltp qty reason = s
    ∧ (lookupM s.longPositions sym = some p →
        checkLongExit strategies false now s sym ltp
          = { s with longPositions := insertM s.longPositions sym ⟨p.EntryPrice, max p.HighestPrice ltp, p.Qty, p.EntryTime⟩ })
    ∧ (lookupM s.shortPositions sym = some q →
        checkShortExit strategies false now s sym ltp
          = { s with shortPositions := insertM s.shortPositions sym ⟨q.EntryPrice, min q.LowestPrice ltp, q.Qty, q.EntryTime⟩ })
    ∧ (lookupM s.longPositions sym = some p → ∀ ok : Bool,
        lookupM (checkLongExit strategies ok now s sym ltp).longPositions sym
          = none → ok = true)
    ∧ (lookupM s.shortPositions sym = some q → ∀ ok : Bool,
        lookupM (checkShortExit strategies ok now s sym ltp).shortPositions sym
          = none → ok = true) := by
  have hL : lookupM s.longPositions sym = some p →
      checkLongExit strategies false now s sym ltp
        = { s with longPositions := insertM s.longPositions sym ⟨p.EntryPrice, max p.HighestPrice ltp, p.Qty, p.EntryTime⟩ } := by
    intro hp
    simp only [checkLongExit, hp, exitLong_false, ite_self]
  have hS : lookupM s.shortPositions sym = some q →
      checkShortExit strategies false now s sym ltp
        = { s with shortPositions := insertM s.shortPositions sym ⟨q.EntryPrice, min q.LowestPrice ltp, q.Qty, q.EntryTime⟩ } := by
    intro hq
    simp only [checkShortExit, hq, exitShort_false, ite_self]
  refine ⟨exitLong_false now s sym ltp qty reason,
    exitShort_false now s sym ltp qty reason, hL, hS, ?_, ?_⟩
  · intro hp ok hnone
    cases ok with
    | true => rfl
    | false =>
        rw [hL hp] at hnone
        simp only [lookupM_insertM_self] at hnone
        exact absurd hnone (Option.some_ne_none _)
  · intro hq ok hnone
    cases ok with
    | true => rfl
    | false =>
        rw [hS hq] at hnone
        simp only [lookupM_insertM_self] at hnone
        exact absurd hnone (Option.some_ne_none _)

/-- C2: for an open position, the exit rules are evaluated in the fixed order
fixed stop-loss, then target, then trailing stop; the first condition that
holds fires the exit with its reason and the remaining checks are skipped for
the cycle.  In particular a price satisfying the fixed-SL threshold exits with
the fixed-SL reason regardless of the target condition. -/
theorem c2_exit_precedence (strategies : String → Option StockStrategy)
    (now : Nat) (s : EngineState) (sym : String) (ltp : ℚ) (p : LongPos)
    (q : ShortPos) :
    (lookupM s.longPositions sym = some p →
      (ltp ≤ p.EntryPrice * (1 - (getStrategy strategies sym).SL) →
        (checkLongExit strategies true now s sym ltp).tradeHistory
          = s.tradeHistory ++ [⟨sym, "LONG", p.EntryTime, p.EntryPrice, now, ltp, p.Qty, (p.Qty : ℚ) * (ltp - p.EntryPrice), .fixedSL (getStrategy strategies sym).SL⟩]
        ∧ lookupM (checkLongExit strategies true now s sym
            ltp).longPositions sym = none)
      ∧ (¬ ltp ≤ p.EntryPrice * (1 - (getStrategy strategies sym).SL) →
         p.EntryPrice * (1 + (getStrategy strategies sym).Target) ≤ ltp →
        (checkLongExit strategies true now s sym ltp).tradeHistory
          = s.tradeHistory ++ [⟨sym, "LONG", p.EntryTime, p.EntryPrice, now, ltp, p.Qty, (p.Qty : ℚ) * (ltp - p.EntryPrice), .target (getStrategy strategies sym).Target⟩]
        ∧ lookupM (checkLongExit strategies true now s sym
            ltp).longPositions sym = none)
      ∧ (¬ ltp ≤ p.EntryPrice * (1 - (getStrategy strategies sym).SL) →
         ¬ p.EntryPrice * (1 + (getStrategy strategies sym).Target) ≤ ltp →
         ltp ≤ max p.HighestPrice ltp * (1 - defaultTrailingPercent / 100) →
        (checkLongExit strategies true now s sym ltp).tradeHistory
          = s.tradeHistory ++ [⟨sym, "LONG", p.EntryTime, p.EntryPrice, now, ltp, p.Qty, (p.Qty : ℚ) * (ltp - p.EntryPrice), .trailingSL⟩]
        ∧ lookupM (checkLongExit strategies true now s sym
            ltp).longPositions sym = none)
      ∧ (¬ ltp ≤ p.EntryPrice * (1 - (getStrategy strategies sym).SL) →
         ¬ p.EntryPrice * (1 + (getStrategy strategies sym).Target) ≤ ltp →
         ¬ ltp ≤ max p.HighestPrice ltp * (1 - defaultTrailingPercent / 100) →
        checkLongExit strategies true now s sym ltp
          = { s with longPositions := insertM s.longPositions sym ⟨p.EntryPrice, max p.HighestPrice ltp, p.Qty, p.EntryTime⟩ }))
    ∧ (lookupM s.shortPositions sym = some q →
      (q.EntryPrice * (1 + (getStrategy strategies sym).SL) ≤ ltp →
        (checkShortExit strategies true now s sym ltp).tradeHistory
          = s.tradeHistory ++ [⟨sym, "SHORT", q.EntryTime, q.EntryPrice, now, ltp, q.Qty, (q.Qty : ℚ) * (q.EntryPrice - ltp), .fixedSL (getStrategy strategies sym).SL⟩]
        ∧ lookupM (checkShortExit strategies true now s sym
            ltp).shortPositions sym = none)
      ∧ (¬ q.EntryPrice * (1 + (getStrategy strategies sym).SL) ≤ ltp →
         ltp ≤ q.EntryPrice * (1 - (getStrategy strategies sym).Target) →
        (checkShortExit strategies true now s sym ltp).tradeHistory
          = s.tradeHistory ++ [⟨sym, "SHORT", q.EntryTime, q.EntryPrice, now, ltp, q.Qty, (q.Qty : ℚ) * (q.EntryPrice - ltp), .target (getStrategy strategies sym).Target⟩]
        ∧ lookupM (checkShortExit strategies true now s sym
            ltp).shortPositions sym = none)
      ∧ (¬ q.EntryPrice * (1 + (getStrategy strategies sym).SL) ≤ ltp →
         ¬ ltp ≤ q.EntryPrice * (1 - (getStrategy strategies sym).Target) →
         min q.LowestPrice ltp * (1 + defaultTrailingPercent / 100) ≤ ltp →
        (checkShortExit strategies true now s sym ltp).tradeHistory
          = s.tradeHistory ++ [⟨sym, "SHORT", q.EntryTime, q.EntryPrice, now, ltp, q.Qty, (q.Qty : ℚ) * (q.EntryPrice - ltp), .trailingSL⟩]
        ∧ lookupM (checkShortExit strategies true now s sym
            ltp).shortPositions sym = none)
      ∧ (¬ q.EntryPrice * (1 + (getStrategy strategies sym).SL) ≤ ltp →
         ¬ ltp ≤ q.EntryPrice * (1 - (getStrategy strategies sym).Target) →
         ¬ min q.LowestPrice ltp * (1 + defaultTrailingPercent / 100) ≤ ltp →
        checkShortExit strategies true now s sym ltp
          = { s with shortPositions := insertM s.shortPositions sym ⟨q.EntryPrice, min q.LowestPrice ltp, q.Qty, q.EntryTime⟩ })) := by
  constructor
  · intro hp
    refine ⟨?_, ?_, ?_, ?_⟩
    · intro h1
      simp only [checkLongExit, hp]
      rw [if_pos h1]
      simp [exitLong, logTradeRecord, lookupM_insertM_self,
        lookupM_eraseM_self]
    · intro h1 h2
      simp only [checkLongExit, hp]
      rw [if_neg h1, if_pos h2]
      simp [exitLong, logTradeRecord, lookupM_insertM_self,
        lookupM_eraseM_self]
    · intro h1 h2 h3
      simp only [checkLongExit, hp]
      rw [if_neg h1, if_neg h2, if_pos h3]
      simp [exitLong, logTradeRecord, lookupM_insertM_self,
        lookupM_eraseM_self]
    · intro h1 h2 h3
      simp only [checkLongExit, hp]
      rw [if_neg h1, if_neg h2, if_neg h3]
  · intro hq
    refine ⟨?_, ?_, ?_, ?_⟩
    · intro h1
      simp only [checkShortExit, hq]
      rw [if_pos h1]
      simp [exitShort, logTradeRecord, lookupM_insertM_self,
        lookupM_eraseM_self]
    · intro h1 h2
      simp only [checkShortExit, hq]
      rw [if_neg h1, if_pos h2]
      simp [exitShort, logTradeRecord, lookupM_insertM_self,
        lookupM_eraseM_self]
    · intro h1 h2 h3
      simp only [checkShortExit, hq]
      rw [if_neg h1, if_neg h2, if_pos h3]
      simp [exitShort, logTradeRecord, lookupM_insertM_self,
        lookupM_eraseM_self]
    · intro h1 h2 h3
      simp only [checkShortExit, hq]
      rw [if_neg h1, if_neg h2, if_neg h3]

/-- The default strategy source (no per-symbol entries) used in witnesses. -/
def stratd : String → Option StockStrategy := fun _ => none

/-- Witness state: one open long, entry 100, quantity 10, for symbol "A". -/
def s2w : EngineState :=
  { initState with longPositions := [("A", ⟨100, 100, 10, 0⟩)] }

theorem c2_witness :
    lookupM s2w.longPositions "A" = some ⟨100, 100, 10, 0⟩
    ∧ (99 : ℚ) ≤ 100 * (1 - (getStrategy stratd "A").SL)
    ∧ (checkLongExit stratd true 7 s2w "A" 99).tradeHistory
        = [⟨"A", "LONG", 0, 100, 7, 99, 10, -10, .fixedSL (getStrategy stratd "A").SL⟩]
    ∧ lookupM (checkLongExit stratd true 7 s2w "A" 99).longPositions "A"
        = none := by
  have hp : lookupM s2w.longPositions "A" = some ⟨100, 100, 10, 0⟩ := rfl
  have h1 : (99 : ℚ) ≤ 100 * (1 - (getStrategy stratd "A").SL) := by
    norm_num [getStrategy, stratd, defaultFixedSLPercent]
  have h := (c2_exit_precedence stratd 7 s2w "A" 99 ⟨100, 100, 10, 0⟩
    ⟨0, 0, 0, 0⟩).1 hp
  have h2 := h.1 h1
  refine ⟨hp, h1, ?_, h2.2⟩
  rw [h2.1]
  norm_num [s2w, initState, TradeRecord.mk.injEq]

/-! ### Square-off lemmas -/

theorem lookupM_eraseM {α : Type} (m : List (String × α)) (k k' : String) :
    lookupM (eraseM m k) k' = if k = k' then none else lookupM m k' := by
  by_cases h : k = k'
  · rw [if_pos h, h]
    exact lookupM_eraseM_self m k'
  · rw [if_neg h]
    exact lookupM_eraseM_ne m k k' h

theorem exitLong_history_mono (ok : Bool) (now : Nat) (s : EngineState)
    (sym : String) (ltp : ℚ) (qty : Int) (r0 : ExitReason) (r : TradeRecord)
    (h : r ∈ s.tradeHistory) :
    r ∈ (exitLong ok now s sym ltp qty r0).tradeHistory := by
  unfold exitLong
  split
  · simp only [logTradeRecord]
    exact List.mem_append_left _ h
  · exact h

theorem exitShort_history_mono (ok : Bool) (now : Nat) (s : EngineState)
    (sym : String) (ltp : ℚ) (qty : Int) (r0 : ExitReason) (r : TradeRecord)
    (h : r ∈ s.tradeHistory) :
    r ∈ (exitShort ok now s sym ltp qty r0).tradeHistory := by
  unfold exitShort
  split
  · simp only [logTradeRecord]
    exact List.mem_append_left _ h
  · exact h

theorem exitLong_shortPositions (ok : Bool) (now : Nat) (s : EngineState)
    (sym : String) (ltp : ℚ) (qty : Int) (r0 : ExitReason) :
    (exitLong ok now s sym ltp qty r0).shortPositions = s.shortPositions := by
  unfold exitLong
  split <;> rfl

theorem exitShort_longPositions (ok : Bool) (now : Nat) (s : EngineState)
    (sym : String) (ltp : ℚ) (qty : Int) (r0 : ExitReason) :
    (exitShort ok now s sym ltp qty r0).longPositions = s.longPositions := by
  unfold exitShort
  split <;> rfl

theorem exitLong_lookup_ne (ok : Bool) (now : Nat) (s : EngineState)
    (sym sym' : String) (ltp : ℚ) (qty : Int) (r0 : ExitReason)
    (h : sym ≠ sym') :
    lookupM (exitLong ok now s sym ltp qty r0).longPositions sym'
      = lookupM s.longPositions sym' := by
  unfold exitLong
  split
  · simp only [logTradeRecord]
    exact lookupM_eraseM_ne _ _ _ h
  · rfl

theorem exitLong_lookup_none (ok : Bool) (now : Nat) (s : EngineState)
    (sym sym' : String) (ltp : ℚ) (qty : Int) (r0 : ExitReason)
    (h : lookupM s.longPositions sym' = none) :
    lookupM (exitLong ok now s sym ltp qty r0).longPositions sym' = none := by
  unfold exitLong
  split
  · simp only [logTradeRecord]
    rw [lookupM_eraseM]
    split
    · rfl
    · exact h
  · exact h

theorem exitShort_lookup_ne (ok : Bool) (now : Nat) (s : EngineState)
    (sym sym' : String) (ltp : ℚ) (qty : Int) (r0 : ExitReason)
    (h : sym ≠ sym') :
    lookupM (exitShort ok now s sym ltp qty r0).shortPositions sym'
      = lookupM s.shortPositions sym' := by
  unfold exitShort
  split
  · simp only [logTradeRecord]
    exact lookupM_eraseM_ne _ _ _ h
  · rfl

theorem exitShort_lookup_none (ok : Bool) (now : Nat) (s : EngineState)
    (sym sym' : String) (ltp : ℚ) (qty : Int) (r0 : ExitReason)
    (h : lookupM s.shortPositions sym' = none) :
    lookupM (exitShort ok now s sym ltp qty r0).shortPositions sym' = none := by
  unfold exitShort
  split
  · simp only [logTradeRecord]
    rw [lookupM_eraseM]
    split
    · rfl
    · exact h
  · exact h

theorem foldExitLong_history (fetch : String → Option ℚ)
    (closeOk : String → Bool) (now : Nat)
    (entries : List (String × LongPos)) : ∀ (st : EngineState)
    (r : TradeRecord), r ∈ st.tradeHistory →
    r ∈ (entries.foldl (fun st e => exitLong (closeOk e.1) now st e.1
      ((fetch e.1).getD 0) e.2.Qty .eodSquareOff) st).tradeHistory := by
  induction entries with
  | nil => exact fun st r h => h
  | cons e t ih =>
      intro st r h
      rw [List.foldl_cons]
      exact ih _ r (exitLong_history_mono _ _ _ _ _ _ _ r h)

theorem foldExitShort_history (fetch : String → Option ℚ)
    (closeOk : String → Bool) (now : Nat)
    (entries : List (String × ShortPos)) : ∀ (st : EngineState)
    (r : TradeRecord), r ∈ st.tradeHistory →
    r ∈ (entries.foldl (fun st e => exitShort (closeOk e.1) now st e.1
      ((fetch e.1).getD 0) e.2.Qty .eodSquareOff) st).tradeHistory := by
  induction entries with
  | nil => exact fun st r h => h
  | cons e t ih =>
      intro st r h
      rw [List.foldl_cons]
      exact ih _ r (exitShort_history_mono _ _ _ _ _ _ _ r h)

theorem foldExitLong_none (fetch : String → Option ℚ)
    (closeOk : String → Bool) (now : Nat) (sym : String)
    (entries : List (String × LongPos)) : ∀ (st : EngineState),
    lookupM st.longPositions sym = none →
    lookupM ((entries.foldl (fun st e => exitLong (closeOk e.1) now st e.1
      ((fetch e.1).getD 0) e.2.Qty .eodSquareOff) st)).longPositions sym
      = none := by
  induction entries with
  | nil => exact fun st h => h
  | cons e t ih =>
      intro st h
      rw [List.foldl_cons]
      exact ih _ (exitLong_lookup_none _ _ _ _ _ _ _ _ h)

theorem foldExitShort_none (fetch : String → Option ℚ)
    (closeOk : String → Bool) (now : Nat) (sym : String)
    (entries : List (String × ShortPos)) : ∀ (st : EngineState),
    lookupM st.shortPositions sym = none →
    lookupM ((entries.foldl (fun st e => exitShort (closeOk e.1) now st e.1
      ((fetch e.1).getD 0) e.2.Qty .eodSquareOff) st)).shortPositions sym
      = none := by
  induction entries with
  | nil => exact fun st h => h
  | cons e t ih =>
      intro st h
      rw [List.foldl_cons]
      exact ih _ (exitShort_lookup_none _ _ _ _ _ _ _ _ h)

theorem foldExitShort_longPositions (fetch : String → Option ℚ)
    (closeOk : String → Bool) (now : Nat)
    (entries : List (String × ShortPos)) : ∀ (st : EngineState),
    ((entries.foldl (fun st e => exitShort (closeOk e.1) now st e.1
      ((fetch e.1).getD 0) e.2.Qty .eodSquareOff) st)).longPositions
      = st.longPositions := by
  induction entries with
  | nil => exact fun st => rfl
  | cons e t ih =>
      intro st
      rw [List.foldl_cons, ih, exitShort_longPositions]

theorem foldExitLong_shortPositions (fetch : String → Option ℚ)
    (closeOk : String → Bool) (now : Nat)
    (entries : List (String × LongPos)) : ∀ (st : EngineState),
    ((entries.foldl (fun st e => exitLong (closeOk e.1) now st e.1
      ((fetch e.1).getD 0) e.2.Qty .eodSquareOff) st)).shortPositions
      = st.shortPositions := by
  induction entries with
  | nil => exact fun st => rfl
  | cons e t ih =>
      intro st
      rw [List.foldl_cons, ih, exitLong_shortPositions]

theorem foldExitLong_closes (fetch : String → Option ℚ)
    (closeOk : String → Bool) (now : Nat) (sym : String) (p : LongPos)
    (hf : fetch sym = none) (hok : closeOk sym = true)
    (entries : List (String × LongPos)) : ∀ (st : EngineState),
    lookupM st.longPositions sym = some p → lookupM entries sym = some p →
    ((⟨sym, "LONG", p.EntryTime, p.EntryPrice, now, 0, p.Qty,
        (p.Qty : ℚ) * (0 - p.EntryPrice), .eodSquareOff⟩ : TradeRecord)
      ∈ (entries.foldl (fun st e => exitLong (closeOk e.1) now st e.1
        ((fetch e.1).getD 0) e.2.Qty .eodSquareOff) st).tradeHistory)
    ∧ lookupM ((entries.foldl (fun st e => exitLong (closeOk e.1) now st e.1
        ((fetch e.1).getD 0) e.2.Qty .eodSquareOff) st)).longPositions sym
      = none := by
  induction entries with
  | nil =>
      intro st hst he
      simp [lookupM] at he
  | cons e t ih =>
      intro st hst he
      obtain ⟨k, v⟩ := e
      rw [List.foldl_cons]
      by_cases hk : k = sym
      · subst hk
        simp only [lookupM] at he
        simp only [if_true, Option.some.injEq] at he
        subst he
        have hexit : exitLong (closeOk k) now st k ((fetch k).getD 0) v.Qty
            .eodSquareOff
            = logTradeRecord
                { st with longPositions := eraseM st.longPositions k }
                ⟨k, "LONG", v.EntryTime, v.EntryPrice, now, 0, v.Qty,
                  (v.Qty : ℚ) * (0 - v.EntryPrice), .eodSquareOff⟩ := by
          rw [hok, hf]
          simp [exitLong, hst]
        constructor
        · rw [hexit]
          apply foldExitLong_history
          simp [logTradeRecord]
        · rw [hexit]
          apply foldExitLong_none
          simp only [logTradeRecord]
          exact lookupM_eraseM_self _ _
      · simp only [lookupM, if_neg hk] at he
        exact ih _ (by rw [exitLong_lookup_ne _ _ _ _ _ _ _ _ hk]
                       exact hst) he

theorem foldExitShort_closes (fetch : String → Option ℚ)
    (closeOk : String → Bool) (now : Nat) (sym : String) (q : ShortPos)
    (hf : fetch sym = none) (hok : closeOk sym = true)
    (entries : List (String × ShortPos)) : ∀ (st : EngineState),
    lookupM st.shortPositions sym = some q → lookupM entries sym = some q →
    ((⟨sym, "SHORT", q.EntryTime, q.EntryPrice, now, 0, q.Qty,
        (q.Qty : ℚ) * (q.EntryPrice - 0), .eodSquareOff⟩ : TradeRecord)
      ∈ (entries.foldl (fun st e => exitShort (closeOk e.1) now st e.1
        ((fetch e.1).getD 0) e.2.Qty .eodSquareOff) st).tradeHistory)
    ∧ lookupM ((entries.foldl (fun st e => exitShort (closeOk e.1) now st e.1
        ((fetch e.1).getD 0) e.2.Qty .eodSquareOff) st)).shortPositions sym
      = none := by
  induction entries with
  | nil =>
      intro st hst he
      simp [lookupM] at he
  | cons e t ih =>
      intro st hst he
      obtain ⟨k, v⟩ := e
      rw [List.foldl_cons]
      by_cases hk : k = sym
      · subst hk
        simp only [lookupM] at he
        simp only [if_true, Option.some.injEq] at he
        subst he
        have hexit : exitShort (closeOk k) now st k ((fetch k).getD 0) v.Qty
            .eodSquareOff
            = logTradeRecord
                { st with shortPositions := eraseM st.shortPositions k }
                ⟨k, "SHORT", v.EntryTime, v.EntryPrice, now, 0, v.Qty,
                  (v.Qty : ℚ) * (v.EntryPrice - 0), .eodSquareOff⟩ := by
          rw [hok, hf]
          simp [exitShort, hst]
        constructor
        · rw [hexit]
          apply foldExitShort_history
          simp [logTradeRecord]
        · rw [hexit]
          apply foldExitShort_none
          simp only [logTradeRecord]
          exact lookupM_eraseM_self _ _
      · simp only [lookupM, if_neg hk] at he
        exact ih _ (by rw [exitShort_lookup_ne _ _ _ _ _ _ _ _ hk]
                       exact hst) he

/-- Witness state for the square-off: one open long for "A". -/
def s10 : EngineState :=
  { initState with longPositions := [("A", ⟨100, 100, 5, 0⟩)] }

theorem exitLongL_not_held (ok : Bool) (now : Nat) (s : EngineState)
    (sym : String) (ltp : ℚ) (qty : Int) (r : ExitReason) :
    exitLongL false ok now s sym ltp qty r
      = some (exitLong ok now s sym ltp qty r) := by
  cases ok
  · simp [exitLongL, exitLong_false]
  · simp [exitLongL]

theorem exitShortL_not_held (ok : Bool) (now : Nat) (s : EngineState)
    (sym : String) (ltp : ℚ) (qty : Int) (r : ExitReason) :
    exitShortL false ok now s sym ltp qty r
      = some (exitShort ok now s sym ltp qty r) := by
  cases ok
  · simp [exitShortL, exitShort_false]
  · simp [exitShortL]

theorem foldExitLongL_none (fetch : String → Option ℚ)
    (closeOk : String → Bool) (now : Nat)
    (entries : List (String × LongPos)) :
    entries.foldl (fun acc e => acc.bind (fun st =>
      exitLongL true (closeOk e.1) now st e.1 ((fetch e.1).getD 0) e.2.Qty
        ExitReason.eodSquareOff)) none = none := by
  induction entries with
  | nil => rfl
  | cons e t ih =>
    rw [List.foldl_cons]
    exact ih

theorem foldExitShortL_none (fetch : String → Option ℚ)
    (closeOk : String → Bool) (now : Nat)
    (entries : List (String × ShortPos)) :
    entries.foldl (fun acc e => acc.bind (fun st =>
      exitShortL true (closeOk e.1) now st e.1 ((fetch e.1).getD 0) e.2.Qty
        ExitReason.eodSquareOff)) none = none := by
  induction entries with
  | nil => rfl
  | cons e t ih =>
    rw [List.foldl_cons]
    exact ih

theorem foldExitLongL_all_fail (fetch : String → Option ℚ)
    (closeOk : String → Bool) (now : Nat)
    (entries : List (String × LongPos))
    (hfail : ∀ e ∈ entries, closeOk e.1 = false) : ∀ (st : EngineState),
    entries.foldl (fun acc e => acc.bind (fun s2 =>
      exitLongL true (closeOk e.1) now s2 e.1 ((fetch e.1).getD 0) e.2.Qty
        ExitReason.eodSquareOff)) (some st) = some st := by
  induction entries with
  | nil =>
    intro st
    rfl
  | cons e t ih =>
    intro st
    rw [List.foldl_cons, hfail e (List.mem_cons_self _ _)]
    rw [show (some st).bind (fun s2 =>
        exitLongL true false now s2 e.1 ((fetch e.1).getD 0)
          e.2.Qty ExitReason.eodSquareOff) = some st from rfl]
    exact ih (fun e2 h2 => hfail e2 (List.mem_cons_of_mem _ h2)) st

theorem foldExitShortL_all_fail (fetch : String → Option ℚ)
    (closeOk : String → Bool) (now : Nat)
    (entries : List (String × ShortPos))
    (hfail : ∀ e ∈ entries, closeOk e.1 = false) : ∀ (st : EngineState),
    entries.foldl (fun acc e => acc.bind (fun s2 =>
      exitShortL true (closeOk e.1) now s2 e.1 ((fetch e.1).getD 0) e.2.Qty
        ExitReason.eodSquareOff)) (some st) = some st := by
  induction entries with
  | nil =>
    intro st
    rfl
  | cons e t ih =>
    intro st
    rw [List.foldl_cons, hfail e (List.mem_cons_self _ _)]
    rw [show (some st).bind (fun s2 =>
        exitShortL true false now s2 e.1 ((fetch e.1).getD 0)
          e.2.Qty ExitReason.eodSquareOff) = some st from rfl]
    exact ih (fun e2 h2 => hfail e2 (List.mem_cons_of_mem _ h2)) st

theorem foldExitLongL_dead (fetch : String → Option ℚ)
    (closeOk : String → Bool) (now : Nat) :
    ∀ (entries : List (String × LongPos)),
    entries.any (fun e => closeOk e.1) = true → ∀ (st : EngineState),
    entries.foldl (fun acc e => acc.bind (fun s2 =>
      exitLongL true (closeOk e.1) now s2 e.1 ((fetch e.1).getD 0) e.2.Qty
        ExitReason.eodSquareOff)) (some st) = none := by
  intro entries
  induction entries with
  | nil =>
    intro hany
    exact absurd hany (by simp)
  | cons e t ih =>
    intro hany st
    rw [List.foldl_cons]
    cases hc : closeOk e.1
    · rw [show (some st).bind (fun s2 =>
          exitLongL true false now s2 e.1 ((fetch e.1).getD 0)
            e.2.Qty ExitReason.eodSquareOff) = some st from rfl]
      have htany : t.any (fun e => closeOk e.1) = true := by
        simpa [List.any_cons, hc] using hany
      exact ih htany st
    · rw [show (some st).bind (fun s2 =>
          exitLongL true true now s2 e.1 ((fetch e.1).getD 0)
            e.2.Qty ExitReason.eodSquareOff) = none from rfl]
      exact foldExitLongL_none fetch closeOk now t

theorem foldExitShortL_dead (fetch : String → Option ℚ)
    (closeOk : String → Bool) (now : Nat) :
    ∀ (entries : List (String × ShortPos)),
    entries.any (fun e => closeOk e.1) = true → ∀ (st : EngineState),
    entries.foldl (fun acc e => acc.bind (fun s2 =>
      exitShortL true (closeOk e.1) now s2 e.1 ((fetch e.1).getD 0) e.2.Qty
        ExitReason.eodSquareOff)) (some st) = none := by
  intro entries
  induction entries with
  | nil =>
    intro hany
    exact absurd hany (by simp)
  | cons e t ih =>
    intro hany st
    rw [List.foldl_cons]
    cases hc : closeOk e.1
    · rw [show (some st).bind (fun s2 =>
          exitShortL true false now s2 e.1 ((fetch e.1).getD 0)
            e.2.Qty ExitReason.eodSquareOff) = some st from rfl]
      have htany : t.any (fun e => closeOk e.1) = true := by
        simpa [List.any_cons, hc] using hany
      exact ih htany st
    · rw [show (some st).bind (fun s2 =>
          exitShortL true true now s2 e.1 ((fetch e.1).getD 0)
            e.2.Qty ExitReason.eodSquareOff) = none from rfl]
      exact foldExitShortL_none fetch closeOk now t

/-- C10 (code bug): the daily square-off never reaches the claimed zero-price
close. It holds the engine mutex while calling the exit functions, which
re-acquire that non-reentrant mutex right after a successful closing order:
the square-off deadlocks (`none`) as soon as any position's closing order
succeeds — no position is removed and no trade record is written — and it
completes only when every closing order fails, leaving the state unchanged.
The lock-aware exits agree with the plain `exitLong`/`exitShort` whenever the
caller does not hold the mutex, so the polling-path exit behavior is the
unchanged lock-free one. -/
theorem c10_squareoff_deadlock (fetch : String → Option ℚ)
    (closeOk : String → Bool) (now : Nat) (s : EngineState) :
    (s.longPositions.any (fun e => closeOk e.1) = true
      ∨ s.shortPositions.any (fun e => closeOk e.1) = true →
      squareOffAllPositions fetch closeOk now s = none)
    ∧ ((∀ e ∈ s.longPositions, closeOk e.1 = false) →
      (∀ e ∈ s.shortPositions, closeOk e.1 = false) →
      squareOffAllPositions fetch closeOk now s = some s)
    ∧ (∀ (ok : Bool) (sym : String) (ltp : ℚ) (qty : Int) (r : ExitReason),
      exitLongL false ok now s sym ltp qty r
        = some (exitLong ok now s sym ltp qty r)
      ∧ exitShortL false ok now s sym ltp qty r
        = some (exitShort ok now s sym ltp qty r)) := by
  refine ⟨?_, ?_, ?_⟩
  · intro hany
    simp only [squareOffAllPositions]
    cases hl : s.longPositions.any (fun e => closeOk e.1)
    · have hs : s.shortPositions.any (fun e => closeOk e.1) = true := by
        rcases hany with h | h
        · rw [hl] at h
          exact absurd h (by simp)
        · exact h
      have hfail : ∀ e ∈ s.longPositions, closeOk e.1 = false := by
        intro e2 he2
        cases hcc : closeOk e2.1
        · rfl
        · have hcon : s.longPositions.any (fun e => closeOk e.1) = true :=
            List.any_eq_true.mpr ⟨e2, he2, hcc⟩
          rw [hl] at hcon
          exact absurd hcon (by simp)
      rw [foldExitLongL_all_fail fetch closeOk now s.longPositions hfail s]
      simp only [Option.some_bind]
      exact foldExitShortL_dead fetch closeOk now s.shortPositions hs s
    · rw [foldExitLongL_dead fetch closeOk now s.longPositions hl s]
      rfl
  · intro hL hS
    simp only [squareOffAllPositions]
    rw [foldExitLongL_all_fail fetch closeOk now s.longPositions hL s]
    simp only [Option.some_bind]
    exact foldExitShortL_all_fail fetch closeOk now s.shortPositions hS s
  · intro ok sym ltp qty r
    exact ⟨exitLongL_not_held ok now s sym ltp qty r,
      exitShortL_not_held ok now s sym ltp qty r⟩
theorem c10_deadlock_witness :
    s10.longPositions.any (fun e => (fun _ : String => true) e.1) = true
    ∧ squareOffAllPositions (fun _ => none) (fun _ => true) 3 s10 = none
    ∧ squareOffAllPositions (fun _ => none) (fun _ => false) 3 s10
        = some s10 :=
  ⟨rfl,
   (c10_squareoff_deadlock (fun _ => none) (fun _ => true) 3 s10).1
     (Or.inl rfl),
   (c10_squareoff_deadlock (fun _ => none) (fun _ => false) 3 s10).2.1
     (fun _ _ => rfl) (fun e he => absurd he (List.not_mem_nil e))⟩

/-! ### Component lemmas for the per-symbol cycle -/

theorem hlStep_High_ge (hl : PriceRange) (ltp : ℚ) :
    ltp ≤ (hlStep hl ltp).High := by
  simp only [hlStep]
  split
  · exact le_refl ltp
  · rename_i h
    push_neg at h
    exact h.2

theorem hlStep_Low_le (hl : PriceRange) (ltp : ℚ) :
    (hlStep hl ltp).Low ≤ ltp := by
  simp only [hlStep]
  split
  · exact le_refl ltp
  · rename_i h
    push_neg at h
    exact h.2

theorem histStep_pos (h : List ℚ) (ltp : ℚ) (hh : ∀ x ∈ h, 0 < x)
    (hl : 0 < ltp) : ∀ x ∈ histStep h ltp, 0 < x := by
  intro x hx
  have hx' : x ∈ h ++ [ltp] := by
    rw [histStep] at hx
    split at hx
    · exact List.mem_of_mem_drop hx
    · exact hx
  rcases List.mem_append.mp hx' with h1 | h2
  · exact hh x h1
  · rw [List.mem_singleton.mp h2]
    exact hl

theorem updateHighLow_longPositions (s : EngineState) (sym : String) (ltp : ℚ) :
    (updateHighLow s sym ltp).longPositions = s.longPositions := rfl

theorem updateHighLow_shortPositions (s : EngineState) (sym : String)
    (ltp : ℚ) :
    (updateHighLow s sym ltp).shortPositions = s.shortPositions := rfl

theorem updateHighLow_ltpHistory (s : EngineState) (sym : String) (ltp : ℚ) :
    (updateHighLow s sym ltp).ltpHistory = s.ltpHistory := rfl

theorem updateLTPHistory_longPositions (s : EngineState) (sym : String)
    (ltp : ℚ) :
    (updateLTPHistory s sym ltp).longPositions = s.longPositions := rfl

theorem updateLTPHistory_shortPositions (s : EngineState) (sym : String)
    (ltp : ℚ) :
    (updateLTPHistory s sym ltp).shortPositions = s.shortPositions := rfl

theorem updateLTPHistory_highLow (s : EngineState) (sym : String) (ltp : ℚ) :
    (updateLTPHistory s sym ltp).highLow = s.highLow := rfl

theorem enterLong_shortPositions (ok : Bool) (now : Nat) (s : EngineState)
    (sym : String) (ltp lev : ℚ) :
    (enterLong ok now s sym ltp lev).shortPositions = s.shortPositions := by
  simp only [enterLong]
  split
  · rfl
  · split <;> rfl

theorem enterLong_highLow (ok : Bool) (now : Nat) (s : EngineState)
    (sym : String) (ltp lev : ℚ) :
    (enterLong ok now s sym ltp lev).highLow = s.highLow := by
  simp only [enterLong]
  split
  · rfl
  · split <;> rfl

theorem enterLong_ltpHistory (ok : Bool) (now : Nat) (s : EngineState)
    (sym : String) (ltp lev : ℚ) :
    (enterLong ok now s sym ltp lev).ltpHistory = s.ltpHistory := by
  simp only [enterLong]
  split
  · rfl
  · split <;> rfl

theorem enterShort_longPositions (ok : Bool) (now : Nat) (s : EngineState)
    (sym : String) (ltp lev : ℚ) :
    (enterShort ok now s sym ltp lev).longPositions = s.longPositions := by
  simp only [enterShort]
  split
  · rfl
  · split <;> rfl

theorem enterShort_highLow (ok : Bool) (now : Nat) (s : EngineState)
    (sym : String) (ltp lev : ℚ) :
    (enterShort ok now s sym ltp lev).highLow = s.highLow := by
  simp only [enterShort]
  split
  · rfl
  · split <;> rfl

theorem enterShort_ltpHistory (ok : Bool) (now : Nat) (s : EngineState)
    (sym : String) (ltp lev : ℚ) :
    (enterShort ok now s sym ltp lev).ltpHistory = s.ltpHistory := by
  simp only [enterShort]
  split
  · rfl
  · split <;> rfl

theorem exitLong_highLow (ok : Bool) (now : Nat) (s : EngineState)
    (sym : String) (ltp : ℚ) (qty : Int) (r : ExitReason) :
    (exitLong ok now s sym ltp qty r).highLow = s.highLow := by
  simp only [exitLong]
  split <;> rfl

theorem exitLong_ltpHistory (ok : Bool) (now : Nat) (s : EngineState)
    (sym : String) (ltp : ℚ) (qty : Int) (r : ExitReason) :
    (exitLong ok now s sym ltp qty r).ltpHistory = s.ltpHistory := by
  simp only [exitLong]
  split <;> rfl

theorem exitShort_highLow (ok : Bool) (now : Nat) (s : EngineState)
    (sym : String) (ltp : ℚ) (qty : Int) (r : ExitReason) :
    (exitShort ok now s sym ltp qty r).highLow = s.highLow := by
  simp only [exitShort]
  split <;> rfl

theorem exitShort_ltpHistory (ok : Bool) (now : Nat) (s : EngineState)
    (sym : String) (ltp : ℚ) (qty : Int) (r : ExitReason) :
    (exitShort ok now s sym ltp qty r).ltpHistory = s.ltpHistory := by
  simp only [exitShort]
  split <;> rfl

theorem checkBreakoutLong_shortPositions (strategies : String →
    Option StockStrategy) (ok : Bool) (now : Nat) (s : EngineState)
    (sym : String) (ltp thr : ℚ) :
    (checkBreakoutLong strategies ok now s sym ltp thr).shortPositions
      = s.shortPositions := by
  simp only [checkBreakoutLong]
  split
  · rfl
  · split
    · rw [enterLong_shortPositions]
    · rfl

theorem checkBreakoutLong_highLow (strategies : String →
    Option StockStrategy) (ok : Bool) (now : Nat) (s : EngineState)
    (sym : String) (ltp thr : ℚ) :
    (checkBreakoutLong strategies ok now s sym ltp thr).highLow
      = s.highLow := by
  simp only [checkBreakoutLong]
  split
  · rfl
  · split
    · rw [enterLong_highLow]
    · rfl

theorem checkBreakoutLong_ltpHistory (strategies : String →
    Option StockStrategy) (ok : Bool) (now : Nat) (s : EngineState)
    (sym : String) (ltp thr : ℚ) :
    (checkBreakoutLong strategies ok now s sym ltp thr).ltpHistory
      = s.ltpHistory := by
  simp only [checkBreakoutLong]
  split
  · rfl
  · split
    · rw [enterLong_ltpHistory]
    · rfl

theorem checkBounceBackBuy_shortPositions (strategies : String →
    Option StockStrategy) (ok : Bool) (now : Nat) (s : EngineState)
    (sym : String) (ltp : ℚ) :
    (checkBounceBackBuy strategies ok now s sym ltp).shortPositions
      = s.shortPositions := by
  simp only [checkBounceBackBuy]
  split
  · rfl
  · split
    · rw [enterLong_shortPositions]
    · rfl

theorem checkBounceBackBuy_highLow (strategies : String →
    Option StockStrategy) (ok : Bool) (now : Nat) (s : EngineState)
    (sym : String) (ltp : ℚ) :
    (checkBounceBackBuy strategies ok now s sym ltp).highLow = s.highLow := by
  simp only [checkBounceBackBuy]
  split
  · rfl
  · split
    · rw [enterLong_highLow]
    · rfl

theorem checkBounceBackBuy_ltpHistory (strategies : String →
    Option StockStrategy) (ok : Bool) (now : Nat) (s : EngineState)
    (sym : String) (ltp : ℚ) :
    (checkBounceBackBuy strategies ok now s sym ltp).ltpHistory
      = s.ltpHistory := by
  simp only [checkBounceBackBuy]
  split
  · rfl
  · split
    · rw [enterLong_ltpHistory]
    · rfl

theorem checkBreakdownShort_longPositions (strategies : String →
    Option StockStrategy) (ok : Bool) (now : Nat) (s : EngineState)
    (sym : String) (ltp thr : ℚ) :
    (checkBreakdownShort strategies ok now s sym ltp thr).longPositions
      = s.longPositions := by
  simp only [checkBreakdownShort]
  split
  · rfl
  · split
    · rw [enterShort_longPositions]
    · rfl

theorem checkBreakdownShort_highLow (strategies : String →
    Option StockStrategy) (ok : Bool) (now : Nat) (s : EngineState)
    (sym : String) (ltp thr : ℚ) :
    (checkBreakdownShort strategies ok now s sym ltp thr).highLow
      = s.highLow := by
  simp only [checkBreakdownShort]
  split
  · rfl
  · split
    · rw [enterShort_highLow]
    · rfl

theorem checkBreakdownShort_ltpHistory (strategies : String →
    Option StockStrategy) (ok : Bool) (now : Nat) (s : EngineState)
    (sym : String) (ltp thr : ℚ) :
    (checkBreakdownShort strategies ok now s sym ltp thr).ltpHistory
      = s.ltpHistory := by
  simp only [checkBreakdownShort]
  split
  · rfl
  · split
    · rw [enterShort_ltpHistory]
    · rfl

theorem checkQuickDropShort_longPositions (strategies : String →
    Option StockStrategy) (ok : Bool) (now : Nat) (s : EngineState)
    (sym : String) (ltp : ℚ) :
    (checkQuickDropShort strategies ok now s sym ltp).longPositions
      = s.longPositions := by
  simp only [checkQuickDropShort]
  split
  · rfl
  · split
    · rw [enterShort_longPositions]
    · rfl

theorem checkQuickDropShort_highLow (strategies : String →
    Option StockStrategy) (ok : Bool) (now : Nat) (s : EngineState)
    (sym : String) (ltp : ℚ) :
    (checkQuickDropShort strategies ok now s sym ltp).highLow = s.highLow := by
  simp only [checkQuickDropShort]
  split
  · rfl
  · split
    · rw [enterShort_highLow]
    · rfl

theorem checkQuickDropShort_ltpHistory (strategies : String →
    Option StockStrategy) (ok : Bool) (now : Nat) (s : EngineState)
    (sym : String) (ltp : ℚ) :
    (checkQuickDropShort strategies ok now s sym ltp).ltpHistory
      = s.ltpHistory := by
  simp only [checkQuickDropShort]
  split
  · rfl
  · split
    · rw [enterShort_ltpHistory]
    · rfl

theorem checkLongExit_shortPositions (strategies : String →
    Option StockStrategy) (ok : Bool) (now : Nat) (s : EngineState)
    (sym : String) (ltp : ℚ) :
    (checkLongExit strategies ok now s sym ltp).shortPositions
      = s.shortPositions := by
  simp only [checkLongExit]
  split
  · rfl
  · split
    · rw [exitLong_shortPositions]
    · split
      · rw [exitLong_shortPositions]
      · split
        · rw [exitLong_shortPositions]
        · rfl

theorem checkLongExit_highLow (strategies : String → Option StockStrategy)
    (ok : Bool) (now : Nat) (s : EngineState) (sym : String) (ltp : ℚ) :
    (checkLongExit strategies ok now s sym ltp).highLow = s.highLow := by
  simp only [checkLongExit]
  split
  · rfl
  · split
    · rw [exitLong_highLow]
    · split
      · rw [exitLong_highLow]
      · split
        · rw [exitLong_highLow]
        · rfl

theorem checkLongExit_ltpHistory (strategies : String → Option StockStrategy)
    (ok : Bool) (now : Nat) (s : EngineState) (sym : String) (ltp : ℚ) :
    (checkLongExit strategies ok now s sym ltp).ltpHistory = s.ltpHistory := by
  simp only [checkLongExit]
  split
  · rfl
  · split
    · rw [exitLong_ltpHistory]
    · split
      · rw [exitLong_ltpHistory]
      · split
        · rw [exitLong_ltpHistory]
        · rfl

theorem checkShortExit_longPositions (strategies : String →
    Option StockStrategy) (ok : Bool) (now : Nat) (s : EngineState)
    (sym : String) (ltp : ℚ) :
    (checkShortExit strategies ok now s sym ltp).longPositions
      = s.longPositions := by
  simp only [checkShortExit]
  split
  · rfl
  · split
    · rw [exitShort_longPositions]
    · split
      · rw [exitShort_longPositions]
      · split
        · rw [exitShort_longPositions]
        · rfl

theorem checkShortExit_highLow (strategies : String → Option StockStrategy)
    (ok : Bool) (now : Nat) (s : EngineState) (sym : String) (ltp : ℚ) :
    (checkShortExit strategies ok now s sym ltp).highLow = s.highLow := by
  simp only [checkShortExit]
  split
  · rfl
  · split
    · rw [exitShort_highLow]
    · split
      · rw [exitShort_highLow]
      · split
        · rw [exitShort_highLow]
        · rfl

theorem checkShortExit_ltpHistory (strategies : String → Option StockStrategy)
    (ok : Bool) (now : Nat) (s : EngineState) (sym : String) (ltp : ℚ) :
    (checkShortExit strategies ok now s sym ltp).ltpHistory
      = s.ltpHistory := by
  simp only [checkShortExit]
  split
  · rfl
  · split
    · rw [exitShort_ltpHistory]
    · split
      · rw [exitShort_ltpHistory]
      · split
        · rw [exitShort_ltpHistory]
        · rfl

/-! ### Detector guard and no-fire lemmas -/

theorem checkBreakoutLong_of_open (strategies : String → Option StockStrategy)
    (ok : Bool) (now : Nat) (s : EngineState) (sym : String) (ltp thr : ℚ)
    (p : LongPos) (hp : lookupM s.longPositions sym = some p)
    (hpe : 0 < p.EntryPrice) :
    checkBreakoutLong strategies ok now s sym ltp thr = s := by
  simp only [checkBreakoutLong, hp, Option.getD_some]
  rw [if_pos hpe]

theorem checkBounceBackBuy_of_open (strategies : String → Option StockStrategy)
    (ok : Bool) (now : Nat) (s : EngineState) (sym : String) (ltp : ℚ)
    (p : LongPos) (hp : lookupM s.longPositions sym = some p)
    (hpe : 0 < p.EntryPrice) :
    checkBounceBackBuy strategies ok now s sym ltp = s := by
  simp only [checkBounceBackBuy, hp, Option.getD_some]
  rw [if_pos (Or.inl hpe)]

theorem checkBreakdownShort_of_open (strategies : String →
    Option StockStrategy) (ok : Bool) (now : Nat) (s : EngineState)
    (sym : String) (ltp thr : ℚ) (q : ShortPos)
    (hq : lookupM s.shortPositions sym = some q) (hqe : 0 < q.EntryPrice) :
    checkBreakdownShort strategies ok now s sym ltp thr = s := by
  simp only [checkBreakdownShort, hq, Option.getD_some]
  rw [if_pos hqe]

theorem checkQuickDropShort_of_open (strategies : String →
    Option StockStrategy) (ok : Bool) (now : Nat) (s : EngineState)
    (sym : String) (ltp : ℚ) (q : ShortPos)
    (hq : lookupM s.shortPositions sym = some q) (hqe : 0 < q.EntryPrice) :
    checkQuickDropShort strategies ok now s sym ltp = s := by
  simp only [checkQuickDropShort, hq, Option.getD_some]
  rw [if_pos (Or.inl hqe)]

theorem checkBreakoutLong_nofire (strategies : String → Option StockStrategy)
    (ok : Bool) (now : Nat) (s : EngineState) (sym : String) (ltp thr : ℚ)
    (hthr : 0 ≤ thr)
    (hhigh : ltp ≤ ((lookupM s.highLow sym).getD ⟨0, 0⟩).High) :
    checkBreakoutLong strategies ok now s sym ltp thr = s := by
  have hc : ¬(0 < ((lookupM s.highLow sym).getD ⟨0, 0⟩).High
      ∧ ((lookupM s.highLow sym).getD ⟨0, 0⟩).High * (1 + thr) < ltp) := by
    rintro ⟨h1, h2⟩
    have hexp : ((lookupM s.highLow sym).getD ⟨0, 0⟩).High * (1 + thr)
        = ((lookupM s.highLow sym).getD ⟨0, 0⟩).High
          + ((lookupM s.highLow sym).getD ⟨0, 0⟩).High * thr := by ring
    have hnn : 0 ≤ ((lookupM s.highLow sym).getD ⟨0, 0⟩).High * thr :=
      mul_nonneg (le_of_lt h1) hthr
    linarith
  simp only [checkBreakoutLong]
  split
  · rfl
  · rfl

theorem checkBreakdownShort_nofire (strategies : String →
    Option StockStrategy) (ok : Bool) (now : Nat) (s : EngineState)
    (sym : String) (ltp thr : ℚ) (hthr : 0 ≤ thr)
    (hlow : ((lookupM s.highLow sym).getD ⟨0, 0⟩).Low ≤ ltp) :
    checkBreakdownShort strategies ok now s sym ltp thr = s := by
  have hc : ¬(0 < ((lookupM s.highLow sym).getD ⟨0, 0⟩).Low
      ∧ ltp < ((lookupM s.highLow sym).getD ⟨0, 0⟩).Low * (1 - thr)) := by
    rintro ⟨h1, h2⟩
    have hexp : ((lookupM s.highLow sym).getD ⟨0, 0⟩).Low * (1 - thr)
        = ((lookupM s.highLow sym).getD ⟨0, 0⟩).Low
          - ((lookupM s.highLow sym).getD ⟨0, 0⟩).Low * thr := by ring
    have hnn : 0 ≤ ((lookupM s.highLow sym).getD ⟨0, 0⟩).Low * thr :=
      mul_nonneg (le_of_lt h1) hthr
    linarith
  simp only [checkBreakdownShort]
  split
  · rfl
  · rfl

theorem checkBounceBackBuy_cases (strategies : String → Option StockStrategy)
    (ok : Bool) (now : Nat) (s : EngineState) (sym : String) (ltp : ℚ) :
    checkBounceBackBuy strategies ok now s sym ltp = s
    ∨ (2 ≤ ((lookupM s.ltpHistory sym).getD []).length
       ∧ ((lookupM s.ltpHistory sym).getD []).getD
           (((lookupM s.ltpHistory sym).getD []).length - 2) 0
           * (1 + defaultBounceRebound) ≤ ltp
       ∧ checkBounceBackBuy strategies ok now s sym ltp
           = enterLong ok now s sym ltp (getStrategy strategies sym).Leverage)
      := by
  simp only [checkBounceBackBuy]
  split
  · exact Or.inl rfl
  · rename_i hguard
    push_neg at hguard
    split
    · rename_i hcond
      exact Or.inr ⟨hguard.2, hcond.2, rfl⟩
    · exact Or.inl rfl

theorem checkQuickDropShort_cases (strategies : String →
    Option StockStrategy) (ok : Bool) (now : Nat) (s : EngineState)
    (sym : String) (ltp : ℚ) :
    checkQuickDropShort strategies ok now s sym ltp = s
    ∨ (2 ≤ ((lookupM s.ltpHistory sym).getD []).length
       ∧ defaultQuickDrop
           ≤ (((lookupM s.ltpHistory sym).getD []).getD
               (((lookupM s.ltpHistory sym).getD []).length - 2) 0 - ltp)
             / ((lookupM s.ltpHistory sym).getD []).getD
               (((lookupM s.ltpHistory sym).getD []).length - 2) 0
       ∧ checkQuickDropShort strategies ok now s sym ltp
           = enterShort ok now s sym ltp (getStrategy strategies sym).Leverage)
      := by
  simp only [checkQuickDropShort]
  split
  · exact Or.inl rfl
  · rename_i hguard
    push_neg at hguard
    split
    · rename_i hcond
      exact Or.inr ⟨hguard.2, hcond, rfl⟩
    · exact Or.inl rfl

/-- The bounce-back and quick-drop conditions cannot hold together when the
previous history sample is a positive price. -/
theorem bounce_quickdrop_exclusive (prev ltp : ℚ) (hprev : 0 < prev)
    (hbb : prev * (1 + defaultBounceRebound) ≤ ltp) :
    ¬ defaultQuickDrop ≤ (prev - ltp) / prev := by
  intro hqd
  rw [le_div_iff₀ hprev] at hqd
  rw [defaultQuickDrop] at hqd
  rw [defaultBounceRebound] at hbb
  nlinarith

/-! ### Position-count lemmas -/

theorem totalOpen_enterLong_le (ok : Bool) (now : Nat) (s : EngineState)
    (sym : String) (ltp lev : ℚ) :
    totalOpen (enterLong ok now s sym ltp lev) ≤ totalOpen s + 1 := by
  simp only [enterLong]
  split
  · exact Nat.le_succ_of_le (le_refl _)
  · split
    · simp only [totalOpen]
      exact le_trans (Nat.add_le_add_right (length_insertM_le _ _ _) _)
        (le_of_eq (Nat.add_right_comm _ _ _))
    · exact Nat.le_succ_of_le (le_refl _)

theorem totalOpen_enterShort_le (ok : Bool) (now : Nat) (s : EngineState)
    (sym : String) (ltp lev : ℚ) :
    totalOpen (enterShort ok now s sym ltp lev) ≤ totalOpen s + 1 := by
  simp only [enterShort]
  split
  · exact Nat.le_succ_of_le (le_refl _)
  · split
    · simp only [totalOpen]
      exact le_trans (Nat.add_le_add_left (length_insertM_le _ _ _) _)
        (le_of_eq (Nat.add_assoc _ _ _).symm)
    · exact Nat.le_succ_of_le (le_refl _)

theorem totalOpen_exitLong_le (ok : Bool) (now : Nat) (s : EngineState)
    (sym : String) (ltp : ℚ) (qty : Int) (r : ExitReason) :
    totalOpen (exitLong ok now s sym ltp qty r) ≤ totalOpen s := by
  simp only [exitLong]
  split
  · simp only [logTradeRecord, totalOpen]
    have h := length_eraseM_le s.longPositions sym
    omega
  · exact le_refl _

theorem totalOpen_exitShort_le (ok : Bool) (now : Nat) (s : EngineState)
    (sym : String) (ltp : ℚ) (qty : Int) (r : ExitReason) :
    totalOpen (exitShort ok now s sym ltp qty r) ≤ totalOpen s := by
  simp only [exitShort]
  split
  · simp only [logTradeRecord, totalOpen]
    have h := length_eraseM_le s.shortPositions sym
    omega
  · exact le_refl _

theorem totalOpen_checkLongExit_le (strategies : String →
    Option StockStrategy) (ok : Bool) (now : Nat) (s : EngineState)
    (sym : String) (ltp : ℚ) :
    totalOpen (checkLongExit strategies ok now s sym ltp) ≤ totalOpen s := by
  simp only [checkLongExit]
  split
  · exact le_refl _
  · rename_i pos0 heq
    split
    · refine le_trans (totalOpen_exitLong_le _ _ _ _ _ _ _) ?_
      simp only [totalOpen]
      exact Nat.add_le_add_right (length_insertM_of_mem _ _ _ _ heq) _
    · split
      · refine le_trans (totalOpen_exitLong_le _ _ _ _ _ _ _) ?_
        simp only [totalOpen]
        exact Nat.add_le_add_right (length_insertM_of_mem _ _ _ _ heq) _
      · split
        · refine le_trans (totalOpen_exitLong_le _ _ _ _ _ _ _) ?_
          simp only [totalOpen]
          exact Nat.add_le_add_right (length_insertM_of_mem _ _ _ _ heq) _
        · simp only [totalOpen]
          exact Nat.add_le_add_right (length_insertM_of_mem _ _ _ _ heq) _

theorem totalOpen_checkShortExit_le (strategies : String →
    Option StockStrategy) (ok : Bool) (now : Nat) (s : EngineState)
    (sym : String) (ltp : ℚ) :
    totalOpen (checkShortExit strategies ok now s sym ltp) ≤ totalOpen s := by
  simp only [checkShortExit]
  split
  · exact le_refl _
  · rename_i pos0 heq
    split
    · refine le_trans (totalOpen_exitShort_le _ _ _ _ _ _ _) ?_
      simp only [totalOpen]
      exact Nat.add_le_add_left (length_insertM_of_mem _ _ _ _ heq) _
    · split
      · refine le_trans (totalOpen_exitShort_le _ _ _ _ _ _ _) ?_
        simp only [totalOpen]
        exact Nat.add_le_add_left (length_insertM_of_mem _ _ _ _ heq) _
      · split
        · refine le_trans (totalOpen_exitShort_le _ _ _ _ _ _ _) ?_
          simp only [totalOpen]
          exact Nat.add_le_add_left (length_insertM_of_mem _ _ _ _ heq) _
        · simp only [totalOpen]
          exact Nat.add_le_add_left (length_insertM_of_mem _ _ _ _ heq) _

theorem getD_mem_of_lt (l : List ℚ) (n : Nat) (h : n < l.length) :
    l.getD n 0 ∈ l := by
  rw [List.getD_eq_getElem l 0 h]
  exact List.getElem_mem h

theorem checkAllEntries_ltpHistory (strategies : String → Option StockStrategy)
    (ok : OrderOutcomes) (now : Nat) (s : EngineState) (sym : String)
    (ltp : ℚ) :
    (checkAllEntries strategies ok now s sym ltp).ltpHistory
      = s.ltpHistory := by
  simp only [checkAllEntries]
  split
  · rfl
  · split
    · rw [checkQuickDropShort_ltpHistory, checkBreakdownShort_ltpHistory,
        checkBounceBackBuy_ltpHistory, checkBreakoutLong_ltpHistory]
    · rw [checkBounceBackBuy_ltpHistory, checkBreakoutLong_ltpHistory]

/-! ### Lookup-transport lemmas -/

theorem enterLong_lookup_ne (ok : Bool) (now : Nat) (s : EngineState)
    (k sym : String) (ltp lev : ℚ) (h : k ≠ sym) :
    lookupM (enterLong ok now s k ltp lev).longPositions sym
      = lookupM s.longPositions sym := by
  simp only [enterLong]
  split
  · rfl
  · split
    · exact lookupM_insertM_ne _ _ _ _ h
    · rfl

theorem enterShort_lookup_ne (ok : Bool) (now : Nat) (s : EngineState)
    (k sym : String) (ltp lev : ℚ) (h : k ≠ sym) :
    lookupM (enterShort ok now s k ltp lev).shortPositions sym
      = lookupM s.shortPositions sym := by
  simp only [enterShort]
  split
  · rfl
  · split
    · exact lookupM_insertM_ne _ _ _ _ h
    · rfl

theorem checkBreakoutLong_lookup_long_ne (strategies : String →
    Option StockStrategy) (ok : Bool) (now : Nat) (s : EngineState)
    (k sym : String) (ltp thr : ℚ) (h : k ≠ sym) :
    lookupM (checkBreakoutLong strategies ok now s k ltp thr).longPositions
      sym = lookupM s.longPositions sym := by
  simp only [checkBreakoutLong]
  split
  · rfl
  · split
    · exact enterLong_lookup_ne _ _ _ _ _ _ _ h
    · rfl

theorem checkBounceBackBuy_lookup_long_ne (strategies : String →
    Option StockStrategy) (ok : Bool) (now : Nat) (s : EngineState)
    (k sym : String) (ltp : ℚ) (h : k ≠ sym) :
    lookupM (checkBounceBackBuy strategies ok now s k ltp).longPositions sym
      = lookupM s.longPositions sym := by
  simp only [checkBounceBackBuy]
  split
  · rfl
  · split
    · exact enterLong_lookup_ne _ _ _ _ _ _ _ h
    · rfl

theorem checkBreakdownShort_lookup_short_ne (strategies : String →
    Option StockStrategy) (ok : Bool) (now : Nat) (s : EngineState)
    (k sym : String) (ltp thr : ℚ) (h : k ≠ sym) :
    lookupM (checkBreakdownShort strategies ok now s k ltp thr).shortPositions
      sym = lookupM s.shortPositions sym := by
  simp only [checkBreakdownShort]
  split
  · rfl
  · split
    · exact enterShort_lookup_ne _ _ _ _ _ _ _ h
    · rfl

theorem checkQuickDropShort_lookup_short_ne (strategies : String →
    Option StockStrategy) (ok : Bool) (now : Nat) (s : EngineState)
    (k sym : String) (ltp : ℚ) (h : k ≠ sym) :
    lookupM (checkQuickDropShort strategies ok now s k ltp).shortPositions sym
      = lookupM s.shortPositions sym := by
  simp only [checkQuickDropShort]
  split
  · rfl
  · split
    · exact enterShort_lookup_ne _ _ _ _ _ _ _ h
    · rfl

theorem checkAllEntries_lookup_long_ne (strategies : String →
    Option StockStrategy) (ok : OrderOutcomes) (now : Nat) (s : EngineState)
    (k sym : String) (ltp : ℚ) (h : k ≠ sym) :
    lookupM (checkAllEntries strategies ok now s k ltp).longPositions sym
      = lookupM s.longPositions sym := by
  simp only [checkAllEntries]
  split
  · rfl
  · split
    · rw [checkQuickDropShort_longPositions, checkBreakdownShort_longPositions,
        checkBounceBackBuy_lookup_long_ne _ _ _ _ _ _ _ h,
        checkBreakoutLong_lookup_long_ne _ _ _ _ _ _ _ _ h]
    · rw [checkBounceBackBuy_lookup_long_ne _ _ _ _ _ _ _ h,
        checkBreakoutLong_lookup_long_ne _ _ _ _ _ _ _ _ h]

theorem checkAllEntries_lookup_short_ne (strategies : String →
    Option StockStrategy) (ok : OrderOutcomes) (now : Nat) (s : EngineState)
    (k sym : String) (ltp : ℚ) (h : k ≠ sym) :
    lookupM (checkAllEntries strategies ok now s k ltp).shortPositions sym
      = lookupM s.shortPositions sym := by
  simp only [checkAllEntries]
  split
  · rfl
  · split
    · rw [checkQuickDropShort_lookup_short_ne _ _ _ _ _ _ _ h,
        checkBreakdownShort_lookup_short_ne _ _ _ _ _ _ _ _ h,
        checkBounceBackBuy_shortPositions, checkBreakoutLong_shortPositions]
    · rw [checkBounceBackBuy_shortPositions, checkBreakoutLong_shortPositions]

theorem checkLongExit_lookup_ne (strategies : String → Option StockStrategy)
    (ok : Bool) (now : Nat) (s : EngineState) (k sym : String) (ltp : ℚ)
    (h : k ≠ sym) :
    lookupM (checkLongExit strategies ok now s k ltp).longPositions sym
      = lookupM s.longPositions sym := by
  simp only [checkLongExit]
  split
  · rfl
  · split
    · rw [exitLong_lookup_ne _ _ _ _ _ _ _ _ h]
      exact lookupM_insertM_ne _ _ _ _ h
    · split
      · rw [exitLong_lookup_ne _ _ _ _ _ _ _ _ h]
        exact lookupM_insertM_ne _ _ _ _ h
      · split
        · rw [exitLong_lookup_ne _ _ _ _ _ _ _ _ h]
          exact lookupM_insertM_ne _ _ _ _ h
        · exact lookupM_insertM_ne _ _ _ _ h

theorem checkShortExit_lookup_ne (strategies : String → Option StockStrategy)
    (ok : Bool) (now : Nat) (s : EngineState) (k sym : String) (ltp : ℚ)
    (h : k ≠ sym) :
    lookupM (checkShortExit strategies ok now s k ltp).shortPositions sym
      = lookupM s.shortPositions sym := by
  simp only [checkShortExit]
  split
  · rfl
  · split
    · rw [exitShort_lookup_ne _ _ _ _ _ _ _ _ h]
      exact lookupM_insertM_ne _ _ _ _ h
    · split
      · rw [exitShort_lookup_ne _ _ _ _ _ _ _ _ h]
        exact lookupM_insertM_ne _ _ _ _ h
      · split
        · rw [exitShort_lookup_ne _ _ _ _ _ _ _ _ h]
          exact lookupM_insertM_ne _ _ _ _ h
        · exact lookupM_insertM_ne _ _ _ _ h

theorem processSymbol_lookup_long_ne (strategies : String →
    Option StockStrategy) (ok : OrderOutcomes) (now : Nat) (s : EngineState)
    (k sym : String) (ltp : ℚ) (h : k ≠ sym) :
    lookupM (processSymbol strategies ok now s k ltp).longPositions sym
      = lookupM s.longPositions sym := by
  simp only [processSymbol]
  rw [checkShortExit_longPositions, checkLongExit_lookup_ne _ _ _ _ _ _ _ h,
    checkAllEntries_lookup_long_ne _ _ _ _ _ _ _ h,
    updateLTPHistory_longPositions, updateHighLow_longPositions]

theorem processSymbol_lookup_short_ne (strategies : String →
    Option StockStrategy) (ok : OrderOutcomes) (now : Nat) (s : EngineState)
    (k sym : String) (ltp : ℚ) (h : k ≠ sym) :
    lookupM (processSymbol strategies ok now s k ltp).shortPositions sym
      = lookupM s.shortPositions sym := by
  simp only [processSymbol]
  rw [checkShortExit_lookup_ne _ _ _ _ _ _ _ h, checkLongExit_shortPositions,
    checkAllEntries_lookup_short_ne _ _ _ _ _ _ _ h,
    updateLTPHistory_shortPositions, updateHighLow_shortPositions]

theorem exitLong_lookup_self (ok : Bool) (now : Nat) (s : EngineState)
    (sym : String) (ltp : ℚ) (qty : Int) (r : ExitReason) :
    lookupM (exitLong ok now s sym ltp qty r).longPositions sym
      = if ok then none else lookupM s.longPositions sym := by
  cases ok
  · simp [exitLong_false]
  · simp [exitLong, logTradeRecord, lookupM_eraseM_self]

theorem exitShort_lookup_self (ok : Bool) (now : Nat) (s : EngineState)
    (sym : String) (ltp : ℚ) (qty : Int) (r : ExitReason) :
    lookupM (exitShort ok now s sym ltp qty r).shortPositions sym
      = if ok then none else lookupM s.shortPositions sym := by
  cases ok
  · simp [exitShort_false]
  · simp [exitShort, logTradeRecord, lookupM_eraseM_self]

theorem checkLongExit_lookup (strategies : String → Option StockStrategy)
    (ok : Bool) (now : Nat) (s : EngineState) (sym : String) (ltp : ℚ)
    (p : LongPos) (hp : lookupM s.longPositions sym = some p) :
    lookupM (checkLongExit strategies ok now s sym ltp).longPositions sym
      = none
    ∨ lookupM (checkLongExit strategies ok now s sym ltp).longPositions sym
        = some ⟨p.EntryPrice, max p.HighestPrice ltp, p.Qty, p.EntryTime⟩ := by
  simp only [checkLongExit, hp]
  split
  · rw [exitLong_lookup_self]
    cases ok
    · right
      simp [lookupM_insertM_self]
    · left
      simp
  · split
    · rw [exitLong_lookup_self]
      cases ok
      · right
        simp [lookupM_insertM_self]
      · left
        simp
    · split
      · rw [exitLong_lookup_self]
        cases ok
        · right
          simp [lookupM_insertM_self]
        · left
          simp
      · right
        exact lookupM_insertM_self _ _ _

theorem checkShortExit_lookup (strategies : String → Option StockStrategy)
    (ok : Bool) (now : Nat) (s : EngineState) (sym : String) (ltp : ℚ)
    (q : ShortPos) (hq : lookupM s.shortPositions sym = some q) :
    lookupM (checkShortExit strategies ok now s sym ltp).shortPositions sym
      = none
    ∨ lookupM (checkShortExit strategies ok now s sym ltp).shortPositions sym
        = some ⟨q.EntryPrice, min q.LowestPrice ltp, q.Qty, q.EntryTime⟩ := by
  simp only [checkShortExit, hq]
  split
  · rw [exitShort_lookup_self]
    cases ok
    · right
      simp [lookupM_insertM_self]
    · left
      simp
  · split
    · rw [exitShort_lookup_self]
      cases ok
      · right
        simp [lookupM_insertM_self]
      · left
        simp
    · split
      · rw [exitShort_lookup_self]
        cases ok
        · right
          simp [lookupM_insertM_self]
        · left
          simp
      · right
        exact lookupM_insertM_self _ _ _

theorem checkAllEntries_lookup_long_open (strategies : String →
    Option StockStrategy) (ok : OrderOutcomes) (now : Nat) (s : EngineState)
    (sym : String) (ltp : ℚ) (p : LongPos)
    (hp : lookupM s.longPositions sym = some p) (hpe : 0 < p.EntryPrice) :
    lookupM (checkAllEntries strategies ok now s sym ltp).longPositions sym
      = some p := by
  simp only [checkAllEntries]
  split
  · exact hp
  · rw [checkBreakoutLong_of_open _ _ _ _ _ _ _ _ hp hpe,
      checkBounceBackBuy_of_open _ _ _ _ _ _ _ hp hpe]
    split
    · rw [checkQuickDropShort_longPositions, checkBreakdownShort_longPositions]
      exact hp
    · exact hp

theorem checkAllEntries_lookup_short_open (strategies : String →
    Option StockStrategy) (ok : OrderOutcomes) (now : Nat) (s : EngineState)
    (sym : String) (ltp : ℚ) (q : ShortPos)
    (hq : lookupM s.shortPositions sym = some q) (hqe : 0 < q.EntryPrice) :
    lookupM (checkAllEntries strategies ok now s sym ltp).shortPositions sym
      = some q := by
  simp only [checkAllEntries]
  split
  · exact hq
  · have hq2 : lookupM (checkBounceBackBuy strategies ok.bounceBack now
        (checkBreakoutLong strategies ok.breakoutLong now s sym ltp
          (getStrategy strategies sym).BreakoutLong) sym ltp).shortPositions
        sym = some q := by
      rw [checkBounceBackBuy_shortPositions, checkBreakoutLong_shortPositions]
      exact hq
    split
    · rw [checkBreakdownShort_of_open _ _ _ _ _ _ _ _ hq2 hqe,
        checkQuickDropShort_of_open _ _ _ _ _ _ _ hq2 hqe]
      exact hq2
    · exact hq2

theorem processSymbol_long_extreme (strategies : String →
    Option StockStrategy) (ok : OrderOutcomes) (now : Nat) (s : EngineState)
    (sym : String) (ltp : ℚ) (p : LongPos)
    (hp : lookupM s.longPositions sym = some p) (hpe : 0 < p.EntryPrice) :
    lookupM (processSymbol strategies ok now s sym ltp).longPositions sym
      = none
    ∨ lookupM (processSymbol strategies ok now s sym ltp).longPositions sym
        = some ⟨p.EntryPrice, max p.HighestPrice ltp, p.Qty, p.EntryTime⟩ := by
  simp only [processSymbol]
  have hp2 : lookupM (updateLTPHistory (updateHighLow s sym ltp) sym
      ltp).longPositions sym = some p := by
    rw [updateLTPHistory_longPositions, updateHighLow_longPositions]
    exact hp
  have hp3 := checkAllEntries_lookup_long_open strategies ok now _ sym ltp p
    hp2 hpe
  rcases checkLongExit_lookup strategies ok.longExit now _ sym ltp p hp3 with
    h4 | h4
  · left
    rw [checkShortExit_longPositions]
    exact h4
  · right
    rw [checkShortExit_longPositions]
    exact h4

theorem processSymbol_short_extreme (strategies : String →
    Option StockStrategy) (ok : OrderOutcomes) (now : Nat) (s : EngineState)
    (sym : String) (ltp : ℚ) (q : ShortPos)
    (hq : lookupM s.shortPositions sym = some q) (hqe : 0 < q.EntryPrice) :
    lookupM (processSymbol strategies ok now s sym ltp).shortPositions sym
      = none
    ∨ lookupM (processSymbol strategies ok now s sym ltp).shortPositions sym
        = some ⟨q.EntryPrice, min q.LowestPrice ltp, q.Qty, q.EntryTime⟩ := by
  simp only [processSymbol]
  have hq2 : lookupM (updateLTPHistory (updateHighLow s sym ltp) sym
      ltp).shortPositions sym = some q := by
    rw [updateLTPHistory_shortPositions, updateHighLow_shortPositions]
    exact hq
  have hq3 := checkAllEntries_lookup_short_open strategies ok now _ sym ltp q
    hq2 hqe
  have hq4 : lookupM (checkLongExit strategies ok.longExit now
      (checkAllEntries strategies ok now
        (updateLTPHistory (updateHighLow s sym ltp) sym ltp) sym ltp) sym
      ltp).shortPositions sym = some q := by
    rw [checkLongExit_shortPositions]
    exact hq3
  exact checkShortExit_lookup strategies ok.shortExit now _ sym ltp q hq4

theorem runTrace_cons (strategies : String → Option StockStrategy)
    (s : EngineState) (st : PollStep) (tr : List PollStep) :
    runTrace strategies s (st :: tr)
      = runTrace strategies
          (processSymbol strategies st.ok st.now s st.sym st.ltp) tr := rfl

theorem runTrace_long_mono (strategies : String → Option StockStrategy)
    (sym : String) :
    ∀ (tr : List PollStep) (s : EngineState) (p : LongPos),
      lookupM s.longPositions sym = some p → 0 < p.EntryPrice →
      (∀ t1 t2, tr = t1 ++ t2 →
        lookupM (runTrace strategies s t1).longPositions sym ≠ none) →
      ∃ p', lookupM (runTrace strategies s tr).longPositions sym = some p'
        ∧ p'.EntryPrice = p.EntryPrice
        ∧ p.HighestPrice ≤ p'.HighestPrice := by
  intro tr
  induction tr with
  | nil =>
    intro s p hp _ _
    exact ⟨p, hp, rfl, le_refl _⟩
  | cons st rest ih =>
    intro s p hp hpe hkeep
    rw [runTrace_cons]
    have hkeep' : ∀ t1 t2, rest = t1 ++ t2 →
        lookupM (runTrace strategies (processSymbol strategies st.ok st.now s
          st.sym st.ltp) t1).longPositions sym ≠ none := by
      intro t1 t2 h12
      have hthis := hkeep (st :: t1) t2 (by rw [h12, List.cons_append])
      rw [runTrace_cons] at hthis
      exact hthis
    by_cases hk : st.sym = sym
    · subst hk
      rcases processSymbol_long_extreme strategies st.ok st.now s st.sym
        st.ltp p hp hpe with hnone | hsome
      · exfalso
        have hone := hkeep [st] rest rfl
        rw [runTrace_cons] at hone
        exact hone hnone
      · rcases ih (processSymbol strategies st.ok st.now s st.sym st.ltp)
          ⟨p.EntryPrice, max p.HighestPrice st.ltp, p.Qty, p.EntryTime⟩
          hsome hpe hkeep' with ⟨p', h1, h2, h3⟩
        have h3' : max p.HighestPrice st.ltp ≤ p'.HighestPrice := h3
        exact ⟨p', h1, h2, le_trans (le_max_left _ _) h3'⟩
    · have hp2 : lookupM (processSymbol strategies st.ok st.now s st.sym
          st.ltp).longPositions sym = some p := by
        rw [processSymbol_lookup_long_ne strategies st.ok st.now s st.sym sym
          st.ltp hk]
        exact hp
      exact ih _ p hp2 hpe hkeep'

theorem runTrace_short_mono (strategies : String → Option StockStrategy)
    (sym : String) :
    ∀ (tr : List PollStep) (s : EngineState) (q : ShortPos),
      lookupM s.shortPositions sym = some q → 0 < q.EntryPrice →
      (∀ t1 t2, tr = t1 ++ t2 →
        lookupM (runTrace strategies s t1).shortPositions sym ≠ none) →
      ∃ q', lookupM (runTrace strategies s tr).shortPositions sym = some q'
        ∧ q'.EntryPrice = q.EntryPrice
        ∧ q'.LowestPrice ≤ q.LowestPrice := by
  intro tr
  induction tr with
  | nil =>
    intro s q hq _ _
    exact ⟨q, hq, rfl, le_refl _⟩
  | cons st rest ih =>
    intro s q hq hqe hkeep
    rw [runTrace_cons]
    have hkeep' : ∀ t1 t2, rest = t1 ++ t2 →
        lookupM (runTrace strategies (processSymbol strategies st.ok st.now s
          st.sym st.ltp) t1).shortPositions sym ≠ none := by
      intro t1 t2 h12
      have hthis := hkeep (st :: t1) t2 (by rw [h12, List.cons_append])
      rw [runTrace_cons] at hthis
      exact hthis
    by_cases hk : st.sym = sym
    · subst hk
      rcases processSymbol_short_extreme strategies st.ok st.now s st.sym
        st.ltp q hq hqe with hnone | hsome
      · exfalso
        have hone := hkeep [st] rest rfl
        rw [runTrace_cons] at hone
        exact hone hnone
      · rcases ih (processSymbol strategies st.ok st.now s st.sym st.ltp)
          ⟨q.EntryPrice, min q.LowestPrice st.ltp, q.Qty, q.EntryTime⟩
          hsome hqe hkeep' with ⟨q', h1, h2, h3⟩
        have h3' : q'.LowestPrice ≤ min q.LowestPrice st.ltp := h3
        exact ⟨q', h1, h2, le_trans h3' (min_le_left _ _)⟩
    · have hq2 : lookupM (processSymbol strategies st.ok st.now s st.sym
          st.ltp).shortPositions sym = some q := by
        rw [processSymbol_lookup_short_ne strategies st.ok st.now s st.sym sym
          st.ltp hk]
        exact hq
      exact ih _ q hq2 hqe hkeep'

/-- C3: over the lifetime of an open position its favorable extreme is
monotone and updated on every observation of that symbol. Per observation:
for a long open at a positive entry price, the poll-cycle body either removes
the position (an exit fired and the closing order succeeded) or leaves it with
`HighestPrice` replaced by `max HighestPrice ltp` — the update happens before
the exit checks and thus regardless of whether one fires; mirrored for shorts
with `min`. Over a whole trace during which the position stays present after
every prefix, the surviving record has the same entry price, a `HighestPrice`
that never decreased (long) and a `LowestPrice` that never increased (short). -/
theorem c3_extreme_monotone (strategies : String → Option StockStrategy)
    (sym : String) :
    (∀ (ok : OrderOutcomes) (now : Nat) (s : EngineState) (ltp : ℚ)
        (p : LongPos), lookupM s.longPositions sym = some p →
        0 < p.EntryPrice →
        lookupM (processSymbol strategies ok now s sym ltp).longPositions sym
          = none
        ∨ lookupM (processSymbol strategies ok now s sym ltp).longPositions
            sym = some ⟨p.EntryPrice, max p.HighestPrice ltp, p.Qty,
              p.EntryTime⟩)
    ∧ (∀ (ok : OrderOutcomes) (now : Nat) (s : EngineState) (ltp : ℚ)
        (q : ShortPos), lookupM s.shortPositions sym = some q →
        0 < q.EntryPrice →
        lookupM (processSymbol strategies ok now s sym ltp).shortPositions sym
          = none
        ∨ lookupM (processSymbol strategies ok now s sym ltp).shortPositions
            sym = some ⟨q.EntryPrice, min q.LowestPrice ltp, q.Qty,
              q.EntryTime⟩)
    ∧ (∀ (tr : List PollStep) (s : EngineState) (p : LongPos),
        lookupM s.longPositions sym = some p → 0 < p.EntryPrice →
        (∀ t1 t2, tr = t1 ++ t2 →
          lookupM (runTrace strategies s t1).longPositions sym ≠ none) →
        ∃ p', lookupM (runTrace strategies s tr).longPositions sym = some p'
          ∧ p'.EntryPrice = p.EntryPrice
          ∧ p.HighestPrice ≤ p'.HighestPrice)
    ∧ (∀ (tr : List PollStep) (s : EngineState) (q : ShortPos),
        lookupM s.shortPositions sym = some q → 0 < q.EntryPrice →
        (∀ t1 t2, tr = t1 ++ t2 →
          lookupM (runTrace strategies s t1).shortPositions sym ≠ none) →
        ∃ q', lookupM (runTrace strategies s tr).shortPositions sym = some q'
          ∧ q'.EntryPrice = q.EntryPrice
          ∧ q'.LowestPrice ≤ q.LowestPrice) := by
  refine ⟨?_, ?_, ?_, ?_⟩
  · intro ok now s ltp p hp hpe
    exact processSymbol_long_extreme strategies ok now s sym ltp p hp hpe
  · intro ok now s ltp q hq hqe
    exact processSymbol_short_extreme strategies ok now s sym ltp q hq hqe
  · intro tr s p hp hpe hkeep
    exact runTrace_long_mono strategies sym tr s p hp hpe hkeep
  · intro tr s q hq hqe hkeep
    exact runTrace_short_mono strategies sym tr s q hq hqe hkeep

def s3w : EngineState :=
  { initState with
      longPositions := [("A", ⟨100, 110, 4, 0⟩)]
      shortPositions := [("B", ⟨50, 45, 2, 0⟩)] }

theorem c3_witness :
    lookupM s3w.longPositions "A" = some ⟨100, 110, 4, 0⟩
    ∧ lookupM s3w.shortPositions "B" = some ⟨50, 45, 2, 0⟩
    ∧ (lookupM (processSymbol stratd allOrdersOk 1 s3w "A"
          120).longPositions "A" = none
       ∨ lookupM (processSymbol stratd allOrdersOk 1 s3w "A"
            120).longPositions "A" = some ⟨100, max 110 120, 4, 0⟩)
    ∧ (lookupM (processSymbol stratd allOrdersOk 1 s3w "B"
          40).shortPositions "B" = none
       ∨ lookupM (processSymbol stratd allOrdersOk 1 s3w "B"
            40).shortPositions "B" = some ⟨50, min 45 40, 2, 0⟩) :=
  ⟨by decide, by decide,
    (c3_extreme_monotone stratd "A").1 allOrdersOk 1 s3w 120 ⟨100, 110, 4, 0⟩
      (by decide) (by decide),
    (c3_extreme_monotone stratd "B").2.1 allOrdersOk 1 s3w 40 ⟨50, 45, 2, 0⟩
      (by decide) (by decide)⟩

theorem updateHighLow_highLow (s : EngineState) (sym : String) (ltp : ℚ) :
    (updateHighLow s sym ltp).highLow
      = insertM s.highLow sym
          (hlStep ((lookupM s.highLow sym).getD ⟨0, 0⟩) ltp) := rfl

theorem updateLTPHistory_ltpHistory (s : EngineState) (sym : String)
    (ltp : ℚ) :
    (updateLTPHistory s sym ltp).ltpHistory
      = insertM s.ltpHistory sym
          (histStep ((lookupM s.ltpHistory sym).getD []) ltp) := rfl

theorem checkAllEntries_le (strategies : String → Option StockStrategy)
    (ok : OrderOutcomes) (now : Nat) (s : EngineState) (sym : String)
    (ltp : ℚ)
    (hthrL : 0 ≤ (getStrategy strategies sym).BreakoutLong)
    (hthrS : 0 ≤ (getStrategy strategies sym).BreakoutShort)
    (hhigh : ltp ≤ ((lookupM s.highLow sym).getD ⟨0, 0⟩).High)
    (hlow : ((lookupM s.highLow sym).getD ⟨0, 0⟩).Low ≤ ltp)
    (hhist : ∀ x ∈ (lookupM s.ltpHistory sym).getD [], 0 < x)
    (hcap : totalOpen s ≤ defaultMaxPositions) :
    totalOpen (checkAllEntries strategies ok now s sym ltp)
      ≤ defaultMaxPositions := by
  simp only [checkAllEntries]
  split
  · exact hcap
  · rename_i hlt
    have h7 : totalOpen s + 1 ≤ defaultMaxPositions := by
      simp only [totalOpen]
      omega
    rw [checkBreakoutLong_nofire strategies ok.breakoutLong now s sym ltp
      (getStrategy strategies sym).BreakoutLong hthrL hhigh]
    rcases checkBounceBackBuy_cases strategies ok.bounceBack now s sym ltp
      with hbb | ⟨hlen, hbbcond, hbbeq⟩
    · rw [hbb]
      split
      · rw [checkBreakdownShort_nofire strategies ok.breakdownShort now s sym
          ltp (getStrategy strategies sym).BreakoutShort hthrS hlow]
        rcases checkQuickDropShort_cases strategies ok.quickDrop now s sym ltp
          with hqd | ⟨hlen2, hqdcond, hqdeq⟩
        · rw [hqd]
          exact hcap
        · rw [hqdeq]
          exact le_trans (totalOpen_enterShort_le _ _ _ _ _ _) h7
      · exact hcap
    · rw [hbbeq]
      split
      · have hlow2 : ((lookupM (enterLong ok.bounceBack now s sym ltp
            (getStrategy strategies sym).Leverage).highLow sym).getD
            ⟨0, 0⟩).Low ≤ ltp := by
          rw [enterLong_highLow]
          exact hlow
        rw [checkBreakdownShort_nofire strategies ok.breakdownShort now _ sym
          ltp (getStrategy strategies sym).BreakoutShort hthrS hlow2]
        rcases checkQuickDropShort_cases strategies ok.quickDrop now
          (enterLong ok.bounceBack now s sym ltp
            (getStrategy strategies sym).Leverage) sym ltp
          with hqd | ⟨hlen2, hqdcond, hqdeq⟩
        · rw [hqd]
          exact le_trans (totalOpen_enterLong_le _ _ _ _ _ _) h7
        · exfalso
          rw [enterLong_ltpHistory] at hqdcond
          have hidx : ((lookupM s.ltpHistory sym).getD []).length - 2
              < ((lookupM s.ltpHistory sym).getD []).length := by
            omega
          have hprev : 0 < ((lookupM s.ltpHistory sym).getD []).getD
              (((lookupM s.ltpHistory sym).getD []).length - 2) 0 :=
            hhist _ (getD_mem_of_lt _ _ hidx)
          exact bounce_quickdrop_exclusive _ ltp hprev hbbcond hqdcond
      · exact le_trans (totalOpen_enterLong_le _ _ _ _ _ _) h7

theorem processSymbol_cap (strategies : String → Option StockStrategy)
    (ok : OrderOutcomes) (now : Nat) (s : EngineState) (sym : String)
    (ltp : ℚ)
    (hthrL : 0 ≤ (getStrategy strategies sym).BreakoutLong)
    (hthrS : 0 ≤ (getStrategy strategies sym).BreakoutShort)
    (hltp : 0 < ltp)
    (hhist : ∀ k x, x ∈ (lookupM s.ltpHistory k).getD [] → 0 < x)
    (hcap : totalOpen s ≤ defaultMaxPositions) :
    totalOpen (processSymbol strategies ok now s sym ltp)
      ≤ defaultMaxPositions
    ∧ ∀ k x, x ∈ (lookupM (processSymbol strategies ok now s sym
        ltp).ltpHistory k).getD [] → 0 < x := by
  have hhl : lookupM (updateLTPHistory (updateHighLow s sym ltp) sym
      ltp).highLow sym
      = some (hlStep ((lookupM s.highLow sym).getD ⟨0, 0⟩) ltp) := by
    rw [updateLTPHistory_highLow, updateHighLow_highLow]
    exact lookupM_insertM_self _ _ _
  have hhist2 : ∀ k x,
      x ∈ (lookupM (updateLTPHistory (updateHighLow s sym ltp) sym
        ltp).ltpHistory k).getD [] → 0 < x := by
    intro k x hx
    rw [updateLTPHistory_ltpHistory, updateHighLow_ltpHistory] at hx
    by_cases hk : sym = k
    · subst hk
      rw [lookupM_insertM_self] at hx
      exact histStep_pos _ ltp (hhist sym) hltp x hx
    · rw [lookupM_insertM_ne _ _ _ _ hk] at hx
      exact hhist k x hx
  have hca := checkAllEntries_le strategies ok now
    (updateLTPHistory (updateHighLow s sym ltp) sym ltp) sym ltp hthrL hthrS
    (by rw [hhl]; exact hlStep_High_ge _ _)
    (by rw [hhl]; exact hlStep_Low_le _ _)
    (hhist2 sym) hcap
  constructor
  · simp only [processSymbol]
    refine le_trans (totalOpen_checkShortExit_le _ _ _ _ _ _) ?_
    refine le_trans (totalOpen_checkLongExit_le _ _ _ _ _ _) ?_
    exact hca
  · intro k x hx
    simp only [processSymbol] at hx
    rw [checkShortExit_ltpHistory, checkLongExit_ltpHistory,
      checkAllEntries_ltpHistory] at hx
    exact hhist2 k x hx

theorem runTrace_cap (strategies : String → Option StockStrategy)
    (hthr : ∀ sy, 0 ≤ (getStrategy strategies sy).BreakoutLong
      ∧ 0 ≤ (getStrategy strategies sy).BreakoutShort) :
    ∀ (tr : List PollStep) (s : EngineState), (∀ st ∈ tr, 0 < st.ltp) →
      totalOpen s ≤ defaultMaxPositions →
      (∀ k x, x ∈ (lookupM s.ltpHistory k).getD [] → 0 < x) →
      totalOpen (runTrace strategies s tr) ≤ defaultMaxPositions := by
  intro tr
  induction tr with
  | nil =>
    intro s _ hcap _
    exact hcap
  | cons st rest ih =>
    intro s hpos hcap hhist
    rw [runTrace_cons]
    have hstep := processSymbol_cap strategies st.ok st.now s st.sym st.ltp
      (hthr st.sym).1 (hthr st.sym).2 (hpos st (List.mem_cons_self _ _))
      hhist hcap
    exact ih _ (fun st2 h2 => hpos st2 (List.mem_cons_of_mem _ h2)) hstep.1
      hstep.2

/-- C1: the open-position cap. First conjunct: once the total open count
(long plus short, across all symbols) has reached `maxPositions` (8), the
entry routine refuses every detector and returns the state unchanged, for any
state. Second conjunct: along every polling trace from the initial state, the
total open count never exceeds the cap, provided the observed prices are
positive (as market prices are) and every symbol's breakout buffers are
non-negative (true of the shipped strategy table, whose buffers are 0.002).
The hypotheses are needed: with a negative observed price the bounce-back and
quick-drop detectors can both fire in one entry check, which could add two
positions from a count of 7. -/
theorem c1_position_cap (strategies : String → Option StockStrategy) :
    (∀ (ok : OrderOutcomes) (now : Nat) (s : EngineState) (sym : String)
        (ltp : ℚ), defaultMaxPositions ≤ totalOpen s →
        checkAllEntries strategies ok now s sym ltp = s)
    ∧ ((∀ sy, 0 ≤ (getStrategy strategies sy).BreakoutLong
          ∧ 0 ≤ (getStrategy strategies sy).BreakoutShort) →
        ∀ (tr : List PollStep), (∀ st ∈ tr, 0 < st.ltp) →
          totalOpen (runTrace strategies initState tr)
            ≤ defaultMaxPositions) := by
  constructor
  · intro ok now s sym ltp hge
    simp only [checkAllEntries]
    split
    · rfl
    · rename_i hc
      exact absurd hge hc
  · intro hthr tr hpos
    exact runTrace_cap strategies hthr tr initState hpos (Nat.zero_le _)
      (fun k x hx => absurd hx (List.not_mem_nil x))

def s1cap : EngineState :=
  { initState with
      longPositions :=
        [("A", ⟨100, 100, 1, 0⟩), ("B", ⟨100, 100, 1, 0⟩),
         ("C", ⟨100, 100, 1, 0⟩), ("D", ⟨100, 100, 1, 0⟩)]
      shortPositions :=
        [("E", ⟨100, 100, 1, 0⟩), ("F", ⟨100, 100, 1, 0⟩),
         ("G", ⟨100, 100, 1, 0⟩), ("H", ⟨100, 100, 1, 0⟩)] }

theorem c1_witness :
    defaultMaxPositions ≤ totalOpen s1cap
    ∧ checkAllEntries stratd allOrdersOk 0 s1cap "A" (100 : ℚ) = s1cap
    ∧ totalOpen (runTrace stratd initState [⟨"A", 100, allOrdersOk, 1⟩])
        ≤ defaultMaxPositions :=
  ⟨by decide,
   (c1_position_cap stratd).1 allOrdersOk 0 s1cap "A" 100 (by decide),
   (c1_position_cap stratd).2
     (fun sy => ⟨by norm_num [getStrategy, stratd, defaultBuffer],
                 by norm_num [getStrategy, stratd, defaultBuffer]⟩)
     [⟨"A", 100, allOrdersOk, 1⟩]
     (fun st hst => by
       rw [List.mem_singleton] at hst
       subst hst
       decide)⟩

def s5 : EngineState :=
  { initState with
      longPositions := [("A", ⟨100, 110, 4, 0⟩)]
      shortPositions := [("A", ⟨50, 45, 2, 0⟩)] }

theorem c5_witness :
    exitLong false 1 s5 "A" 90 4 ExitReason.trailingSL = s5
    ∧ exitShort false 1 s5 "A" 90 4 ExitReason.trailingSL = s5
    ∧ lookupM s5.longPositions "A" = some ⟨100, 110, 4, 0⟩
    ∧ checkLongExit stratd false 1 s5 "A" 90
        = { s5 with longPositions :=
              insertM s5.longPositions "A" ⟨100, max 110 90, 4, 0⟩ }
    ∧ lookupM s5.shortPositions "A" = some ⟨50, 45, 2, 0⟩
    ∧ checkShortExit stratd false 1 s5 "A" 90
        = { s5 with shortPositions :=
              insertM s5.shortPositions "A" ⟨50, min 45 90, 2, 0⟩ } := by
  have h := c5_failed_close_retains_position stratd 1 s5 "A" 90 4
    ExitReason.trailingSL ⟨100, 110, 4, 0⟩ ⟨50, 45, 2, 0⟩
  exact ⟨h.1, h.2.1, by decide, h.2.2.1 (by decide), by decide,
    h.2.2.2.1 (by decide)⟩

/-- A strategy table with negative breakout buffers, as the externally
written strategy config can supply (its floats are not validated). -/
def stratNeg : String → Option StockStrategy :=
  fun _ => some ⟨"B", true, -1, -1, 2/100, 1/100, 1⟩

/-- Seven open positions (four long, three short) and a session range for
"X", one below the cap of eight. -/
def s1neg : EngineState :=
  { initState with
      highLow := [("X", ⟨9, 9⟩)]
      longPositions :=
        [("L1", ⟨100, 100, 1, 0⟩), ("L2", ⟨100, 100, 1, 0⟩),
         ("L3", ⟨100, 100, 1, 0⟩), ("L4", ⟨100, 100, 1, 0⟩)]
      shortPositions :=
        [("S1", ⟨100, 100, 1, 0⟩), ("S2", ⟨100, 100, 1, 0⟩),
         ("S3", ⟨100, 100, 1, 0⟩)] }

def s1negB : EngineState :=
  { s1neg with
      highLow := [("X", ⟨10, 9⟩)]
      ltpHistory := [("X", [10])] }

def s1negBL : EngineState :=
  { s1negB with
      longPositions :=
        [("X", ⟨10, 10, 10000, 1⟩), ("L1", ⟨100, 100, 1, 0⟩),
         ("L2", ⟨100, 100, 1, 0⟩), ("L3", ⟨100, 100, 1, 0⟩),
         ("L4", ⟨100, 100, 1, 0⟩)] }

def s1negC : EngineState :=
  { s1negBL with
      shortPositions :=
        [("X", ⟨10, 10, 10000, 1⟩), ("S1", ⟨100, 100, 1, 0⟩),
         ("S2", ⟨100, 100, 1, 0⟩), ("S3", ⟨100, 100, 1, 0⟩)] }

/-- C1 counterexample: the cap is tested once at the top of the entry check
and never re-checked between the four detectors, so a strategy whose breakout
buffers are negative (the config file is external input and its values are
not validated) lets the breakout-long and the breakdown-short detectors both
fire for the same symbol in one poll-cycle body: from seven open positions
the count reaches nine, exceeding the cap of eight. The unqualified claim
that the count never exceeds the cap in any reachable state is therefore
false; it holds under positive prices and non-negative buffers. -/
theorem c1_counterexample :
    totalOpen s1neg = 7 ∧ defaultMaxPositions = 8
    ∧ totalOpen (processSymbol stratNeg allOrdersOk 1 s1neg "X" 10) = 9 := by
  refine ⟨rfl, rfl, ?_⟩
  have eA : updateLTPHistory (updateHighLow s1neg "X" 10) "X" 10 = s1negB := by
    decide
  have eB1 : checkBreakoutLong stratNeg allOrdersOk.breakoutLong 1 s1negB "X"
      10 (getStrategy stratNeg "X").BreakoutLong = s1negBL := by
    simp only [checkBreakoutLong]
    split
    · rename_i h
      exact absurd h (by decide)
    · split
      · simp only [enterLong]
        split
        · rename_i h
          exact absurd h (by
            show ¬ goInt (100000 * 1 / 10) < 1
            norm_num [goInt])
        · split
          · have hqty : goInt (defaultBudget
                * (getStrategy stratNeg "X").Leverage / 10) = 10000 := by
              show goInt (100000 * 1 / 10) = 10000
              norm_num [goInt]
            rw [hqty]
            decide
          · rename_i h
            exact absurd rfl h
      · rename_i h
        exfalso
        apply h
        refine ⟨by decide, ?_⟩
        show (10 : ℚ) * (1 + -1) < 10
        norm_num
  have eB2 : checkBounceBackBuy stratNeg allOrdersOk.bounceBack 1 s1negBL "X"
      10 = s1negBL := by
    simp only [checkBounceBackBuy]
    split
    · rfl
    · rename_i h
      exact absurd (Or.inl (by decide)) h
  have eB3 : checkBreakdownShort stratNeg allOrdersOk.breakdownShort 1
      s1negBL "X" 10 (getStrategy stratNeg "X").BreakoutShort = s1negC := by
    simp only [checkBreakdownShort]
    split
    · rename_i h
      exact absurd h (by decide)
    · split
      · simp only [enterShort]
        split
        · rename_i h
          exact absurd h (by
            show ¬ goInt (100000 * 1 / 10) < 1
            norm_num [goInt])
        · split
          · have hqty : goInt (defaultBudget
                * (getStrategy stratNeg "X").Leverage / 10) = 10000 := by
              show goInt (100000 * 1 / 10) = 10000
              norm_num [goInt]
            rw [hqty]
            decide
          · rename_i h
            exact absurd rfl h
      · rename_i h
        exfalso
        apply h
        refine ⟨by decide, ?_⟩
        show (10 : ℚ) < 9 * (1 - -1)
        norm_num
  have eB4 : checkQuickDropShort stratNeg allOrdersOk.quickDrop 1 s1negC "X"
      10 = s1negC := by
    simp only [checkQuickDropShort]
    split
    · rfl
    · rename_i h
      exact absurd (Or.inl (by decide)) h
  have eB : checkAllEntries stratNeg allOrdersOk 1 s1negB "X" 10 = s1negC := by
    simp only [checkAllEntries]
    split
    · rename_i h
      exact absurd h (by decide)
    · rw [eB1, eB2]
      split
      · rw [eB3, eB4]
      · rename_i h
        exact absurd rfl h
  have hp : lookupM s1negC.longPositions "X" = some ⟨10, 10, 10000, 1⟩ := by
    decide
  have eC : checkLongExit stratNeg allOrdersOk.longExit 1 s1negC "X" 10
      = s1negC := by
    simp only [checkLongExit, hp]
    split
    · rename_i h
      exact absurd h (by
        show ¬ ((10 : ℚ) ≤ 10 * (1 - 1/100))
        norm_num)
    · split
      · rename_i h
        exact absurd h (by
          show ¬ ((10 : ℚ) * (1 + 2/100) ≤ 10)
          norm_num)
      · split
        · rename_i h
          exact absurd h (by
            show ¬ ((10 : ℚ) ≤ max (10 : ℚ) 10
              * (1 - defaultTrailingPercent / 100))
            norm_num [max_self, defaultTrailingPercent])
        · decide
  have hq : lookupM s1negC.shortPositions "X" = some ⟨10, 10, 10000, 1⟩ := by
    decide
  have eD : checkShortExit stratNeg allOrdersOk.shortExit 1 s1negC "X" 10
      = s1negC := by
    simp only [checkShortExit, hq]
    split
    · rename_i h
      exact absurd h (by
        show ¬ ((10 : ℚ) * (1 + 1/100) ≤ 10)
        norm_num)
    · split
      · rename_i h
        exact absurd h (by
          show ¬ ((10 : ℚ) ≤ 10 * (1 - 2/100))
          norm_num)
      · split
        · rename_i h
          exact absurd h (by
            show ¬ (min (10 : ℚ) 10 * (1 + defaultTrailingPercent / 100)
              ≤ 10)
            norm_num [min_self, defaultTrailingPercent])
        · decide
  have hfinal : processSymbol stratNeg allOrdersOk 1 s1neg "X" 10 = s1negC := by
    simp only [processSymbol]
    rw [eA, eB, eC, eD]
  rw [hfinal]
  rfl
